import Mathlib

/-!
Shallow embedding of the WoT-crew-remapper application (`app.py`) and proofs
about its specification.

Modelling conventions:
* Python dictionaries (which preserve insertion order) are modelled as
  association lists `List (String × α)`; `alookup` is `d[k]` / `k in d`,
  `aset` is `d[k] = v` (replace in place, append if fresh).
* lxml element trees are modelled by the inductive `Xml`; an element has a
  tag name, an optional text (Python `.text` may be `None`), and a list of
  child elements.  `find` returns the first child with a given tag,
  mirroring `Element.find`.
* Code that can raise an uncaught Python exception is modelled in
  `Except String`, the error string naming the exception class
  (`"KeyError"`, `"AttributeError"`, `"TypeError"`, `"StopIteration"`).
* `next(iter(tags & voice_tags), None)` iterates a Python `set` whose order
  depends on the host hash seed; the embedding abstracts the iteration
  order as an explicit `choose : List String → Option String` parameter,
  constrained by `AdmissibleChoice` (returns a member iff nonempty).
* Nation files are given to `load_tankmen` as `(nation code, parsed
  document)` pairs, the nation code standing for
  `os.path.splitext(filename)[0]`; the verbatim stored document and its
  re-parse are identified, parsing being deterministic.
-/

set_option maxHeartbeats 1000000

/-- Lookup in an insertion-ordered association list (Python `d.get(k)` /
`d[k]`, first binding wins). -/
def alookup {α : Type} : List (String × α) → String → Option α
  | [], _ => none
  | (k, v) :: rest, key => if k = key then some v else alookup rest key

/-- Update in an insertion-ordered association list (Python `d[k] = v`):
replaces the existing binding in place, otherwise appends at the end. -/
def aset {α : Type} : List (String × α) → String → α → List (String × α)
  | [], key, v => [(key, v)]
  | (k, w) :: rest, key, v =>
      if k = key then (key, v) :: rest else (k, w) :: aset rest key v

/-- Tests whether `small` is a leading segment of `big` (character lists). -/
def charsBeginWith : List Char → List Char → Bool
  | [], _ => true
  | _ :: _, [] => false
  | a :: as, b :: bs => a = b && charsBeginWith as bs

/-- Tests whether `needle` occurs as a contiguous segment of the list. -/
def charsContain (needle : List Char) : List Char → Bool
  | [] => charsBeginWith needle []
  | c :: cs => charsBeginWith needle (c :: cs) || charsContain needle cs

/-- Python `hay.find(needle) != -1`, i.e. substring containment. -/
def strContains (hay needle : String) : Bool :=
  charsContain needle.data hay.data

/-- Whitespace class of Python `str.strip()` / ASCII whitespace. -/
def isPySpace (c : Char) : Bool :=
  c = ' ' || c = '\t' || c = '\n' || c = '\r' || c = '\x0b' || c = '\x0c'

/-- Python `str.strip()` (whitespace trim at both ends). -/
def pyStrip (s : String) : String :=
  ⟨((s.data.dropWhile isPySpace).reverse.dropWhile isPySpace).reverse⟩

/-- Grouping of a character list by a separator character: Python
`s.split(sep)` for a one-character separator (adjacent separators yield
empty groups, the empty string yields one empty group). -/
def splitOnChar (sep : Char) : List Char → List (List Char)
  | [] => [[]]
  | c :: cs =>
    let r := splitOnChar sep cs
    if c = sep then [] :: r
    else
      match r with
      | [] => [[c]]
      | g :: gs => (c :: g) :: gs

/-- Python `s.split(' ')` (`app.py` line 107). -/
def pySplit (s : String) : List String :=
  (splitOnChar ' ' s.data).map (fun l => ⟨l⟩)

/-- Replacement pass of Python `str.replace` for a nonempty pattern
`o :: orest`: scans left to right, replacing non-overlapping occurrences.
The fuel argument only drives the recursion; every step consumes at least
one character, so with fuel at least the list length the zero case is
never reached. -/
def pyReplaceAux (o : Char) (orest new : List Char) : Nat → List Char → List Char
  | 0, l => l
  | _ + 1, [] => []
  | fuel + 1, c :: cs =>
    if charsBeginWith (o :: orest) (c :: cs) then
      new ++ pyReplaceAux o orest new fuel (cs.drop orest.length)
    else
      c :: pyReplaceAux o orest new fuel cs

/-- Interleaving used by Python `s.replace("", new)`: the result is
`new` before every character and once more at the end. -/
def pyReplaceEmpty (new : List Char) : List Char → List Char
  | [] => []
  | c :: cs => c :: (new ++ pyReplaceEmpty new cs)

/-- Python `s.replace(old, new)` (all non-overlapping occurrences, left to
right; the empty pattern inserts `new` around every character). -/
def pyReplace (s old new : String) : String :=
  match old.data with
  | [] => ⟨new.data ++ pyReplaceEmpty new.data s.data⟩
  | o :: orest => ⟨pyReplaceAux o orest new.data s.data.length s.data⟩

/-- Character class `[a-zA-Z0-9_-]` of the reference regex. -/
def isWordChar (c : Char) : Bool :=
  c.isAlpha || c.isDigit || c = '_' || c = '-'

/-- Attempt of the regex `#(?P<filename>[a-zA-Z0-9_-]+):(?P<slug>.+)` at one
start position: a `#`, then a maximal nonempty run of word characters, then
`:`, then at least one character (`.` does not cross a newline, and the
greedy `.+` takes everything up to the end or the first newline). -/
def reMatchAt : List Char → Option (String × String)
  | [] => none
  | c :: rest =>
    if c = '#' then
      let run := rest.takeWhile isWordChar
      let after := rest.dropWhile isWordChar
      if run.isEmpty then none
      else
        match after with
        | ':' :: tail =>
          let slug := tail.takeWhile (fun c2 => c2 != '\n')
          if slug.isEmpty then none else some (⟨run⟩, ⟨slug⟩)
        | _ => none
    else none

/-- Python `re.search`: tries `reMatchAt` at every start position, left to
right, returning the first match. -/
def reSearch : List Char → Option (String × String)
  | [] => none
  | c :: cs =>
    match reMatchAt (c :: cs) with
    | some r => some r
    | none => reSearch cs

/-- Attribute names that resolve on a `MoFileCache` instance by normal
lookup - so that `getattr(self, name, None)` never reaches `__getattr__` -
to a value without a usable `find` method, making the subsequent
`.find(slug)` call raise `AttributeError`: the instance attribute `cache`
(a dict, set in `__init__`), the class methods, the methods and method
wrappers inherited from `object`, the dict `__dict__`, the type
`__class__`, and the `None`-valued `__doc__` (the class has no docstring)
and `__weakref__`. -/
def moObjectAttrs : List String :=
  ["cache", "get_name", "__init__", "__getattr__", "__class__",
   "__delattr__", "__dict__", "__dir__", "__doc__", "__eq__", "__format__",
   "__ge__", "__getattribute__", "__gt__", "__hash__", "__init_subclass__",
   "__le__", "__lt__", "__ne__", "__new__", "__reduce__",
   "__reduce_ex__", "__repr__", "__setattr__", "__sizeof__", "__str__",
   "__subclasshook__", "__weakref__"]

/-- Attribute names that resolve on a `MoFileCache` instance to a string:
`__module__` is the name of the class's defining module (`"__main__"`
when `app.py` runs as a script, the import name under a WSGI host) - an
environment-given string on which `.find(slug)` is `str.find`. -/
def moStrAttrs : List String := ["__module__"]

/-- polib `MOFile.find(slug)` followed by `if entry: return entry.msgstr`:
first entry whose msgid equals the key, yielding its msgstr. -/
def moFind (entries : List (String × String)) (slug : String) : Option String :=
  alookup entries slug

/-- `MoFileCache.get_name` (`app.py` lines 27-37), with the cache
object's module name (`MoFileCache.__module__`) passed explicitly since
it depends on how the program is hosted.  A catalog is a list of
`(msgid, msgstr)` entries; the cache maps catalog ids (mo file base
names) to catalogs.  Returns `.ok none` where Python returns `None`.  A
matched catalog id naming a real attribute of the cache object is
resolved by `getattr` without reaching `__getattr__`: for the names in
`moObjectAttrs` the value has no `find` method and `AttributeError` is
raised; for `__module__` the value is the module-name string,
`str.find(slug)` returns its first occurrence index, and `if entry:` is
falsy exactly at index 0 - the key a leading segment of the module
name - in which case the function falls through to `None`, while any
other index (positive or `-1`) is truthy and `.msgstr` on the integer
raises `AttributeError`. -/
def get_name (mn : String) (cache : List (String × List (String × String)))
    (user_string : String) : Except String (Option String) :=
  if user_string = "" then .ok none
  else
    match reSearch user_string.data with
    | none => .ok none
    | some (fname, slug) =>
      if moObjectAttrs.contains fname then .error "AttributeError"
      else if moStrAttrs.contains fname then
        (if charsBeginWith slug.data mn.data then .ok none
         else .error "AttributeError")
      else .ok (moFind ((alookup cache fname).getD []) slug)

/-- lxml element: tag name, optional text, child elements. -/
inductive Xml : Type where
  | elem : String → Option String → List Xml → Xml

/-- Tag name of an element. -/
def Xml.tag : Xml → String
  | .elem t _ _ => t

/-- Text of an element (`.text`, possibly Python `None`). -/
def Xml.text : Xml → Option String
  | .elem _ s _ => s

/-- Child elements of an element. -/
def Xml.children : Xml → List Xml
  | .elem _ _ c => c

/-- Element with its text replaced (`el.text = v`). -/
def Xml.withText : Xml → Option String → Xml
  | .elem t _ c, s => .elem t s c

/-- Element with its children replaced. -/
def Xml.withChildren : Xml → List Xml → Xml
  | .elem t s _, c => .elem t s c

/-- First element of a list with the given tag (`Element.find` over a
child list). -/
def findList (name : String) : List Xml → Option Xml
  | [] => none
  | c :: cs => if c.tag = name then some c else findList name cs

/-- `Element.find(name)`: first child with the given tag, else `None`. -/
def Xml.find (x : Xml) (name : String) : Option Xml :=
  findList name x.children

/-- In-place mutation of the first child with the given tag: applies `f`
to it and splices the result back.  When no child matches, fails with the
given error (the Python code would be operating on `None`). -/
def updateFind (err name : String) (f : Xml → Except String Xml) :
    List Xml → Except String (List Xml)
  | [] => .error err
  | c :: cs =>
    if c.tag = name then
      match f c with
      | .error e => .error e
      | .ok c2 => .ok (c2 :: cs)
    else
      match updateFind err name f cs with
      | .error e => .error e
      | .ok cs2 => .ok (c :: cs2)

/-- Effectful map over a list, stopping at the first error. -/
def mapExcept {α β : Type} (f : α → Except String β) :
    List α → Except String (List β)
  | [] => .ok []
  | a :: as =>
    match f a with
    | .error e => .error e
    | .ok b =>
      match mapExcept f as with
      | .error e => .error e
      | .ok bs => .ok (b :: bs)

/-- Effectful left fold over a list, stopping at the first error. -/
def foldExcept {σ α : Type} (f : σ → α → Except String σ) :
    σ → List α → Except String σ
  | s, [] => .ok s
  | s, a :: as =>
    match f s a with
    | .error e => .error e
    | .ok s2 => foldExcept f s2 as

mutual

/-- Serialization of an element (`etree.tostring`): the exact format is
immaterial to the claims, only that it is a function of the tree. -/
def serializeXml : Xml → String
  | .elem t txt cs =>
    "<" ++ t ++ ">" ++ (txt.getD "") ++ serializeXmlList cs ++ "</" ++ t ++ ">"

/-- Serialization of a list of sibling elements. -/
def serializeXmlList : List Xml → String
  | [] => ""
  | c :: cs => serializeXml c ++ serializeXmlList cs

end

/-- Dataclass `SubstitutionData` (`app.py` lines 65-70): per-nation raw
record attributes.  All fields hold raw `.text` values, hence possibly
Python `None`; `last_name` is `""` when the `lastNames` container was
present but empty (the caught `StopIteration`). -/
structure SubstitutionData where
  first_name : Option String
  last_name : Option String
  icon : Option String
  tags : Option String
deriving DecidableEq

/-- Dataclass `Tankman` (`app.py` lines 73-80).  `first_name` and
`last_name` are resolved through `get_name` and may be Python `None`;
`icon` is the stripped raw icon text; `nation_data` maps nation codes to
raw `SubstitutionData`. -/
structure Tankman where
  first_name : Option String
  last_name : Option String
  icon : String
  slug : String
  voice_tag : String
  nation_data : List (String × SubstitutionData)
deriving DecidableEq

/-- Class-level state of `TankStylesApp`: the verbatim nation documents
and the tankman directory. -/
structure AppState where
  nation_xmls : List (String × Xml)
  tankmen : List (String × Tankman)

/-- Python value of `getattr(tankman.find('tags'), 'text', '')`
(`app.py` lines 107 and 134): `''` when the `tags` child is missing,
otherwise the child's `.text` (possibly `None`). -/
def tagsTextOrDefault (rec : Xml) : Option String :=
  match rec.find "tags" with
  | none => some ""
  | some el => el.text

/-- Python `next(iter(tankman.find(name))).text`: `TypeError` when the
container is missing (`iter(None)`), `StopIteration` when it is empty,
otherwise the first child's text. -/
def firstChildTextE (rec : Xml) (name : String) : Except String (Option String) :=
  match rec.find name with
  | none => .error "TypeError"
  | some el =>
    match el.children with
    | [] => .error "StopIteration"
    | c :: _ => .ok c.text

/-- The guarded last-name extraction (`app.py` lines 113-116): only
`StopIteration` and `AttributeError` are caught, so a missing `lastNames`
container still raises `TypeError` (`iter(None)`); an empty container
yields `""`. -/
def lastNameOf (rec : Xml) : Except String (Option String) :=
  match rec.find "lastNames" with
  | none => .error "TypeError"
  | some el =>
    match el.children with
    | [] => .ok (some "")
    | c :: _ => .ok c.text

/-- Registration branch of `load_tankmen` (`app.py` lines 118-128): when
the slug is new, resolve names through the catalog cache (stripped
inputs); only the resolved last name is compared against the `?empty?`
sentinel.  A `None` raw text makes the `.strip()` call raise
`AttributeError`. -/
def registerTankman (mn : String) (mo : List (String × List (String × String)))
    (slug voice_tag : String) (fn sn ic : Option String)
    (tankmen : List (String × Tankman)) : Except String (List (String × Tankman)) :=
  if (alookup tankmen slug).isSome then .ok tankmen
  else
    match sn with
    | none => .error "AttributeError"
    | some snS =>
      match get_name mn mo (pyStrip snS) with
      | .error e => .error e
      | .ok lnRes =>
        let ln := if lnRes = some "?empty?" then some "" else lnRes
        match fn with
        | none => .error "AttributeError"
        | some fnS =>
          match get_name mn mo (pyStrip fnS) with
          | .error e => .error e
          | .ok fnRes =>
            match ic with
            | none => .error "AttributeError"
            | some icS =>
              .ok (aset tankmen slug
                    { first_name := fnRes, last_name := ln,
                      icon := pyStrip icS, slug := slug,
                      voice_tag := voice_tag, nation_data := [] })

/-- Unconditional attach step of `load_tankmen` (`app.py` lines 130-135):
`self.tankmen[slug].nation_data[nation] = SubstitutionData(...)` with the
raw, untrimmed values. -/
def attachNation (nation : String) (rec : Xml) (fn sn ic : Option String)
    (tankmen : List (String × Tankman)) : Except String (List (String × Tankman)) :=
  match alookup tankmen rec.tag with
  | none => .error "KeyError"
  | some t =>
    let sd : SubstitutionData :=
      { first_name := fn, last_name := sn, icon := ic,
        tags := tagsTextOrDefault rec }
    .ok (aset tankmen rec.tag { t with nation_data := aset t.nation_data nation sd })

/-- Body of the record loop of `load_tankmen` (`app.py` lines 102-135) for
one record, parameterized by the set-iteration choice `choose` and the
module name `mn` (see `get_name`).  The guard `if not voice_tag:
continue` is a falsiness test, skipping the record both when the
intersection is empty (`None`) and when the chosen element is the empty
string. -/
def processRecord (choose : List String → Option String) (mn : String)
    (mo : List (String × List (String × String))) (voice_tags : List String)
    (nation : String) (tankmen : List (String × Tankman)) (rec : Xml) :
    Except String (List (String × Tankman)) :=
  if strContains rec.tag "race" then .ok tankmen
  else
    match tagsTextOrDefault rec with
    | none => .error "AttributeError"
    | some t =>
      match choose ((pySplit (pyStrip t)).filter (fun x => voice_tags.contains x)) with
      | none => .ok tankmen
      | some voice_tag =>
        if voice_tag = "" then .ok tankmen
        else
          match firstChildTextE rec "firstNames" with
          | .error e => .error e
          | .ok fn =>
            match lastNameOf rec with
            | .error e => .error e
            | .ok sn =>
              match firstChildTextE rec "icons" with
              | .error e => .error e
              | .ok ic =>
                match registerTankman mn mo rec.tag voice_tag fn sn ic tankmen with
                | .error e => .error e
                | .ok tankmen1 => attachNation nation rec fn sn ic tankmen1

/-- Body of the per-file loop of `load_tankmen` (`app.py` lines 94-135):
store the verbatim document, locate `premiumGroups` (iterating over a
missing container raises `TypeError`), then process each record. -/
def processNation (choose : List String → Option String) (mn : String)
    (mo : List (String × List (String × String))) (voice_tags : List String)
    (st : AppState) (nf : String × Xml) : Except String AppState :=
  let st1 : AppState := { st with nation_xmls := aset st.nation_xmls nf.1 nf.2 }
  match nf.2.find "premiumGroups" with
  | none => .error "TypeError"
  | some pg =>
    match foldExcept (processRecord choose mn mo voice_tags nf.1) st1.tankmen pg.children with
    | .error e => .error e
    | .ok tm => .ok { st1 with tankmen := tm }

/-- `TankStylesApp.load_tankmen` (`app.py` lines 93-135) over a list of
`(nation, document)` pairs, starting from the empty class-level state. -/
def load_tankmen (choose : List String → Option String) (mn : String)
    (mo : List (String × List (String × String))) (voice_tags : List String)
    (files : List (String × Xml)) : Except String AppState :=
  foldExcept (processNation choose mn mo voice_tags) ⟨[], []⟩ files

/-- Any function standing for `next(iter(set), None)`: returns a member of
the list exactly when it is nonempty. -/
def AdmissibleChoice (choose : List String → Option String) : Prop :=
  (∀ l x, choose l = some x → x ∈ l) ∧ (∀ l, choose l = none → l = [])

/-- Eligibility of a record in `load_tankmen` under a given iteration
order: slug free of `race`, and the element the order picks from the
intersection of the whitespace-split tag text with the voice-tag set is
truthy (`if not voice_tag: continue` skips both `None` and the empty
string). -/
def qualifies (choose : List String → Option String)
    (voice_tags : List String) (rec : Xml) : Bool :=
  !(strContains rec.tag "race") &&
    (match tagsTextOrDefault rec with
     | none => false
     | some t =>
       match choose ((pySplit (pyStrip t)).filter
           (fun x => voice_tags.contains x)) with
       | none => false
       | some voice_tag => voice_tag != "")

/-- Order-independent eligibility: slug free of `race` and nonempty
intersection of the tag set with the voice-tag set.  Coincides with
`qualifies` under every admissible iteration order when the empty string
is not a voice tag (`qualifies_eq_set`). -/
def qualifiesSet (voice_tags : List String) (rec : Xml) : Bool :=
  !(strContains rec.tag "race") &&
    (match tagsTextOrDefault rec with
     | none => false
     | some t =>
       !((pySplit (pyStrip t)).filter (fun x => voice_tags.contains x)).isEmpty)

/-- Raw `SubstitutionData` extracted from a record, when its containers
admit extraction (mirrors the arguments of `attachNation`). -/
def rawSubData (rec : Xml) : Option SubstitutionData :=
  match firstChildTextE rec "firstNames", lastNameOf rec, firstChildTextE rec "icons" with
  | .ok fn, .ok sn, .ok ic =>
    some { first_name := fn, last_name := sn, icon := ic,
           tags := tagsTextOrDefault rec }
  | _, _, _ => none

/-- A document has a qualifying record for a slug: some record under the
first `premiumGroups` child carries the slug as tag and qualifies under
the given iteration order. -/
def DocHasQualifying (choose : List String → Option String)
    (voice_tags : List String) (slug : String) (doc : Xml) : Prop :=
  ∃ pg, doc.find "premiumGroups" = some pg ∧
    ∃ rec, rec ∈ pg.children ∧ rec.tag = slug ∧
      qualifies choose voice_tags rec = true

/-- Order-independent variant of `DocHasQualifying`, via `qualifiesSet`. -/
def DocHasQualifyingSet (voice_tags : List String) (slug : String)
    (doc : Xml) : Prop :=
  ∃ pg, doc.find "premiumGroups" = some pg ∧
    ∃ rec, rec ∈ pg.children ∧ rec.tag = slug ∧
      qualifiesSet voice_tags rec = true

/-- Assignment `rec.find(name).text = v` (`app.py` line 143 left side):
`AttributeError` when the child is missing (attribute assignment on
`None`). -/
def setFindText (err name : String) (v : Option String) (rec : Xml) :
    Except String Xml :=
  match updateFind err name (fun el => .ok (el.withText v)) rec.children with
  | .error e => .error e
  | .ok cs => .ok (rec.withChildren cs)

/-- Assignment `next(iter(rec.find(name))).text = v` (`app.py` lines
144-146): `TypeError` when the container is missing, `StopIteration` when
it is empty, else sets the first child's text. -/
def setFirstChildText (name : String) (v : Option String) (rec : Xml) :
    Except String Xml :=
  match updateFind "TypeError" name
      (fun el =>
        match el.children with
        | [] => .error "StopIteration"
        | c :: cs => .ok (el.withChildren (c.withText v :: cs)))
      rec.children with
  | .error e => .error e
  | .ok cs => .ok (rec.withChildren cs)

/-- Body of the record loop of `substitute` (`app.py` lines 139-146) for
one record: records not named in the mapping pass through unchanged. -/
def substituteRecord (tankmen : List (String × Tankman)) (nation : String)
    (subs : List (String × String)) (rec : Xml) : Except String Xml :=
  match alookup subs rec.tag with
  | none => .ok rec
  | some tslug =>
    match alookup tankmen rec.tag with
    | none => .error "KeyError"
    | some source =>
      match alookup tankmen tslug with
      | none => .error "KeyError"
      | some target =>
        match alookup target.nation_data nation with
        | none => .error "KeyError"
        | some tdata =>
          match tdata.tags with
          | none => .error "AttributeError"
          | some rawTags =>
            match setFindText "AttributeError" "tags"
                (some (pyReplace rawTags source.voice_tag target.voice_tag)) rec with
            | .error e => .error e
            | .ok rec1 =>
              match setFirstChildText "firstNames" tdata.first_name rec1 with
              | .error e => .error e
              | .ok rec2 =>
                match setFirstChildText "lastNames" tdata.last_name rec2 with
                | .error e => .error e
                | .ok rec3 => setFirstChildText "icons" tdata.icon rec3

/-- Record loop of `substitute` over the first `premiumGroups` child. -/
def substitutePg (tankmen : List (String × Tankman)) (nation : String)
    (subs : List (String × String)) (pg : Xml) : Except String Xml :=
  match mapExcept (substituteRecord tankmen nation subs) pg.children with
  | .error e => .error e
  | .ok cs => .ok (pg.withChildren cs)

/-- `TankStylesApp.substitute` up to serialization (`app.py` lines
137-147): re-parse the stored verbatim document (`KeyError` when the
nation is unknown), rewrite the records under the first `premiumGroups`
child (iterating a missing container raises `TypeError`). -/
def substituteDoc (st : AppState) (nation : String)
    (subs : List (String × String)) : Except String Xml :=
  match alookup st.nation_xmls nation with
  | none => .error "KeyError"
  | some doc =>
    match updateFind "TypeError" "premiumGroups"
        (substitutePg st.tankmen nation subs) doc.children with
    | .error e => .error e
    | .ok cs => .ok (doc.withChildren cs)

/-- `TankStylesApp.substitute` (`app.py` lines 137-148): serialized
rewritten document. -/
def substitute (st : AppState) (nation : String)
    (subs : List (String × String)) : Except String String :=
  match substituteDoc st nation subs with
  | .error e => .error e
  | .ok doc => .ok (serializeXml doc)

/-- `substitute` with the class-level state threaded explicitly: the
method reads `self.nation_xmls` and `self.tankmen` and mutates only the
freshly parsed local tree, so the state it leaves behind is the state it
was given. -/
def substituteS (st : AppState) (nation : String)
    (subs : List (String × String)) : Except String (String × AppState) :=
  match substituteDoc st nation subs with
  | .error e => .error e
  | .ok doc => .ok (serializeXml doc, st)

/-- Per-entry step of `create_modpack` (`app.py` lines 152-158): the list
comprehension keeps form keys registered as tankmen with a nonempty value;
the target is re-fetched with `form.get`, dropped unless registered; then
every nation of the source tankman receives the pair (`defaultdict`
semantics). -/
def addEntry (tankmen : List (String × Tankman)) (form : List (String × String))
    (ns : List (String × List (String × String))) (kv : String × String) :
    List (String × List (String × String)) :=
  if (alookup tankmen kv.1).isSome && (kv.2 != "") then
    match alookup form kv.1 with
    | none => ns
    | some tgt =>
      if (alookup tankmen tgt).isSome then
        match alookup tankmen kv.1 with
        | none => ns
        | some srcT =>
          srcT.nation_data.foldl
            (fun ns2 nd => aset ns2 nd.1 (aset ((alookup ns2 nd.1).getD []) kv.1 tgt))
            ns
      else ns
  else ns

/-- The `nation_substitutions` mapping built by `create_modpack`
(`app.py` lines 151-158). -/
def nationSubs (tankmen : List (String × Tankman))
    (form : List (String × String)) : List (String × List (String × String)) :=
  form.foldl (addEntry tankmen form) []

/-- Archive path for one nation (`app.py` line 161). -/
def modPath (nation : String) : String :=
  "res/scripts/item_defs/tankmen/" ++ nation ++ ".xml"

/-- Form entries that survive all three drop conditions of
`create_modpack`: source registered, target nonempty, target registered. -/
def retainedEntries (tankmen : List (String × Tankman))
    (form : List (String × String)) : List (String × String) :=
  form.filter (fun kv =>
    (alookup tankmen kv.1).isSome && (kv.2 != "") && (alookup tankmen kv.2).isSome)

/-- `TankStylesApp.create_modpack` (`app.py` lines 150-163) up to the zip
container: the `(path, content)` pairs handed to `create_zip_file`, one
per affected nation. -/
def create_modpack_files (st : AppState) (form : List (String × String)) :
    Except String (List (String × String)) :=
  mapExcept
    (fun p =>
      match substitute st p.1 p.2 with
      | .error e => Except.error e
      | .ok out => Except.ok (modPath p.1, out))
    (nationSubs st.tankmen form)

/-- Value extraction from an `Except`, with a default. -/
def exceptGetD {α : Type} (e : Except String α) (d : α) : α :=
  match e with
  | .ok a => a
  | .error _ => d

/-- Error extraction from an `Except`. -/
def exceptError {α : Type} (e : Except String α) : Option String :=
  match e with
  | .ok _ => none
  | .error msg => some msg

/-- Tankman stored under a slug after a successful load, for concrete
evaluation in witnesses and counterexamples. -/
def loadedTankman (choose : List String → Option String) (mn : String)
    (mo : List (String × List (String × String))) (voice_tags : List String)
    (files : List (String × Xml)) (slug : String) : Option Tankman :=
  match load_tankmen choose mn mo voice_tags files with
  | .error _ => none
  | .ok st => alookup st.tankmen slug

/-- Observation: text of the first child with the given tag. -/
def findTagText (rec : Xml) (name : String) : Option (Option String) :=
  (rec.find name).map Xml.text

/-- Observation: text of the first grandchild under the first child with
the given tag. -/
def findFirstChildText (rec : Xml) (name : String) : Option (Option String) :=
  (rec.find name).bind (fun el => el.children.head?.map Xml.text)

/-- Positional list indexing used in the frame statements. -/
def nthOpt {α : Type} : List α → Nat → Option α
  | [], _ => none
  | a :: _, 0 => some a
  | _ :: as, n + 1 => nthOpt as n

/-- Raw usa data of the sample source tankman. -/
def sdA : SubstitutionData :=
  { first_name := some "#nav:fa", last_name := some "#nav:la",
    icon := some " iconA ", tags := some "v1 other" }

/-- Raw usa data of the sample target tankman. -/
def sdB : SubstitutionData :=
  { first_name := some "#nav:fb", last_name := some "#nav:lb",
    icon := some "iconB", tags := some "v2" }

/-- Sample source tankman. -/
def tkA : Tankman :=
  { first_name := some "Alpha", last_name := some "AlphaL", icon := "iconA",
    slug := "slugA", voice_tag := "v1", nation_data := [("usa", sdA)] }

/-- Sample target tankman. -/
def tkB : Tankman :=
  { first_name := some "Beta", last_name := some "", icon := "iconB",
    slug := "slugB", voice_tag := "v2", nation_data := [("usa", sdB)] }

/-- Sample record for `tkA` in the usa document. -/
def recA : Xml :=
  .elem "slugA" none
    [.elem "tags" (some "v1 other") [],
     .elem "firstNames" none [.elem "first" (some "#nav:fa") []],
     .elem "lastNames" none [.elem "last" (some "#nav:la") []],
     .elem "icons" none [.elem "icon" (some " iconA ") []]]

/-- Sample record for `tkB` in the usa document. -/
def recB : Xml :=
  .elem "slugB" none
    [.elem "tags" (some "v2") [],
     .elem "firstNames" none [.elem "first" (some "#nav:fb") []],
     .elem "lastNames" none [.elem "last" (some "#nav:lb") []],
     .elem "icons" none [.elem "icon" (some "iconB") []]]

/-- Sample usa nation document. -/
def docUsa : Xml :=
  .elem "root" none [.elem "premiumGroups" none [recA, recB]]

/-- Sample application state with one nation document and two tankmen. -/
def sampleState : AppState :=
  { nation_xmls := [("usa", docUsa)],
    tankmen := [("slugA", tkA), ("slugB", tkB)] }

/-- Output of the sample substitution, evaluated from the embedding. -/
def sampleOut : String :=
  exceptGetD (substitute sampleState "usa" [("slugA", "slugB")]) ""

/-- Source tankman of the nation-gap scenario: has usa data. -/
def gapTkS : Tankman :=
  { first_name := some "S", last_name := some "", icon := "icS",
    slug := "s", voice_tag := "v1",
    nation_data := [("us", { first_name := some "fs", last_name := some "ls",
                             icon := some "is", tags := some "v1" })] }

/-- Target tankman of the nation-gap scenario: has only de data, no usa
entry. -/
def gapTkT : Tankman :=
  { first_name := some "T", last_name := some "", icon := "icT",
    slug := "t", voice_tag := "v2",
    nation_data := [("de", { first_name := some "ft", last_name := some "lt",
                             icon := some "it", tags := some "v2" })] }

/-- Record of the gap source in the us document. -/
def gapRecS : Xml :=
  .elem "s" none
    [.elem "tags" (some "v1") [],
     .elem "firstNames" none [.elem "first" (some "fs") []],
     .elem "lastNames" none [.elem "last" (some "ls") []],
     .elem "icons" none [.elem "icon" (some "is") []]]

/-- Application state of the nation-gap scenario. -/
def gapState : AppState :=
  { nation_xmls := [("us", .elem "root" none [.elem "premiumGroups" none [gapRecS]])],
    tankmen := [("s", gapTkS), ("t", gapTkT)] }

/-- The raw `SubstitutionData` literal attached by `attachNation`. -/
def subDataOf (fn sn ic : Option String) (rec : Xml) : SubstitutionData :=
  { first_name := fn, last_name := sn, icon := ic, tags := tagsTextOrDefault rec }

/-- Tankman with its `nation_data` replaced. -/
def withNationData (t : Tankman) (nd : List (String × SubstitutionData)) : Tankman :=
  { t with nation_data := nd }

/-- Some record in the list carries the slug and qualifies under the
given iteration order. -/
def QualIn (choose : List String → Option String) (voice_tags : List String)
    (recs : List Xml) (s2 : String) : Prop :=
  ∃ rec, rec ∈ recs ∧ rec.tag = s2 ∧ qualifies choose voice_tags rec = true

/-- Some record in the list carries the slug, qualifies under the given
iteration order, and has the given raw substitution data. -/
def QualWith (choose : List String → Option String) (voice_tags : List String)
    (recs : List Xml) (s2 : String) (sd : SubstitutionData) : Prop :=
  ∃ rec, rec ∈ recs ∧ rec.tag = s2 ∧ qualifies choose voice_tags rec = true ∧
    rawSubData rec = some sd

/-- Some record of the document's `premiumGroups` carries the slug,
qualifies under the given iteration order, and has the given raw data. -/
def DocQualWith (choose : List String → Option String)
    (voice_tags : List String) (s2 : String) (doc : Xml)
    (sd : SubstitutionData) : Prop :=
  ∃ pg, doc.find "premiumGroups" = some pg ∧
    QualWith choose voice_tags pg.children s2 sd

/-- Concrete state produced by loading the sample usa document with the
head-of-list iteration order and an empty catalog cache. -/
def c2st : AppState :=
  exceptGetD (load_tankmen List.head? "__main__" [] ["v1", "v2"] [("usa", docUsa)])
    (AppState.mk [] [])

/-- Record whose `tags` text is a single space: stripping yields the
empty string and `'' .split(' ')` yields `[""]`, so the tag set is
`{""}`; the record's name and icon containers are fully populated. -/
def c2xrec : Xml :=
  .elem "hero" none
    [.elem "tags" (some " ") [],
     .elem "firstNames" none [.elem "f" (some "fx") []],
     .elem "lastNames" none [.elem "l" (some "lx") []],
     .elem "icons" none [.elem "i" (some "ix") []]]

/-- Nation document containing `c2xrec`. -/
def c2xdoc : Xml :=
  .elem "root" none [.elem "premiumGroups" none [c2xrec]]

/-- Record whose `firstNames` container is present but empty, with
otherwise complete data and a qualifying voice tag. -/
def c7rec : Xml :=
  .elem "hero" none
    [.elem "tags" (some "v") [],
     .elem "firstNames" none [],
     .elem "lastNames" none [.elem "l" (some "x") []],
     .elem "icons" none [.elem "i" (some "y") []]]

/-- Nation document containing `c7rec`. -/
def c7doc : Xml :=
  .elem "root" none [.elem "premiumGroups" none [c7rec]]

/-- Raw usa data of the tankman of the substitution crash scenario. -/
def c7sd : SubstitutionData :=
  { first_name := some "a", last_name := some "b", icon := some "c",
    tags := some "x" }

/-- Tankman of the substitution crash scenario. -/
def c7tk : Tankman :=
  { first_name := some "A", last_name := some "", icon := "i", slug := "h",
    voice_tag := "v", nation_data := [("usa", c7sd)] }

/-- Record of slug `h` whose `tags` container is missing entirely. -/
def c7recSub : Xml :=
  .elem "h" none [.elem "firstNames" none [.elem "f" (some "a") []]]

/-- State whose usa document holds a mapped record without a `tags`
child. -/
def c7subState : AppState :=
  { nation_xmls := [("usa", .elem "root" none
      [.elem "premiumGroups" none [c7recSub]])],
    tankmen := [("h", c7tk)] }

/-- Catalog cache resolving both name references to the `?empty?`
sentinel. -/
def c8mo : List (String × List (String × String)) :=
  [("nav", [("f", "?empty?"), ("l", "?empty?")])]

/-- Record whose first- and last-name references both resolve to the
sentinel. -/
def c8rec : Xml :=
  .elem "hero" none
    [.elem "tags" (some "v") [],
     .elem "firstNames" none [.elem "a" (some "#nav:f") []],
     .elem "lastNames" none [.elem "b" (some "#nav:l") []],
     .elem "icons" none [.elem "c" (some "ic") []]]

/-- Nation document containing `c8rec`. -/
def c8doc : Xml :=
  .elem "root" none [.elem "premiumGroups" none [c8rec]]

/-- Record carrying two voice tags at once. -/
def c9rec : Xml :=
  .elem "hero" none
    [.elem "tags" (some "va vb") [],
     .elem "firstNames" none [.elem "a" (some "fn") []],
     .elem "lastNames" none [.elem "b" (some "ln") []],
     .elem "icons" none [.elem "c" (some "ic") []]]

/-- Nation document containing `c9rec`. -/
def c9doc : Xml :=
  .elem "root" none [.elem "premiumGroups" none [c9rec]]

/-- The three drop conditions of `create_modpack` as one predicate:
source registered, target nonempty, target registered. -/
def retKeep (tankmen : List (String × Tankman)) (kv : String × String) : Bool :=
  (alookup tankmen kv.1).isSome && (kv.2 != "") && (alookup tankmen kv.2).isSome

/-- A retained entry is relevant to a nation when its source tankman has
`nation_data` for that nation. -/
def coversB (tankmen : List (String × Tankman)) (nation : String)
    (kv : String × String) : Bool :=
  match alookup tankmen kv.1 with
  | some srcT => (alookup srcT.nation_data nation).isSome
  | none => false

/-- Value of one nation key of `nation_substitutions` given the entries
relevant to it (defaultdict: absent when never touched). -/
def nsEntry (base : Option (List (String × String)))
    (l : List (String × String)) : Option (List (String × String)) :=
  match base, l with
  | none, [] => none
  | base, l => some (base.getD [] ++ l)

/-- Concrete modpack output for the witness. -/
def c4files : List (String × String) :=
  exceptGetD (create_modpack_files sampleState [("slugA", "slugB")]) []

theorem alookup_aset_self {α : Type} (l : List (String × α)) (k : String) (v : α) :
    alookup (aset l k v) k = some v := by
  induction l with
  | nil => simp [aset, alookup]
  | cons p rest ih =>
    obtain ⟨k1, v1⟩ := p
    by_cases h : k1 = k
    · subst h
      simp [aset, alookup]
    · simp [aset, alookup, h, ih]

theorem alookup_aset_ne {α : Type} (l : List (String × α)) (k k2 : String) (v : α)
    (h : k2 ≠ k) : alookup (aset l k v) k2 = alookup l k2 := by
  have h2 : ¬ (k = k2) := fun hh => h hh.symm
  induction l with
  | nil => simp [aset, alookup, h2]
  | cons p rest ih =>
    obtain ⟨k1, v1⟩ := p
    by_cases h1 : k1 = k
    · subst h1
      simp [aset, alookup, h2]
    · by_cases h3 : k1 = k2
      · subst h3
        simp [aset, alookup, h1]
      · simp [aset, alookup, h1, h3, ih]

theorem aset_keys {α : Type} (l : List (String × α)) (k : String) (v : α) :
    (aset l k v).map Prod.fst =
      (if k ∈ l.map Prod.fst then l.map Prod.fst else l.map Prod.fst ++ [k]) := by
  induction l with
  | nil => simp [aset]
  | cons p rest ih =>
    obtain ⟨k1, v1⟩ := p
    by_cases h : k1 = k
    · subst h
      simp [aset]
    · have h2 : ¬ (k = k1) := fun hh => h hh.symm
      simp only [aset, if_neg h, List.map_cons, List.mem_cons, ih]
      by_cases hm : k ∈ rest.map Prod.fst
      · simp [hm, h2]
      · simp [hm, h2]

theorem aset_keys_nodup {α : Type} (l : List (String × α)) (k : String) (v : α)
    (h : (l.map Prod.fst).Nodup) : ((aset l k v).map Prod.fst).Nodup := by
  rw [aset_keys]
  by_cases hm : k ∈ l.map Prod.fst
  · simpa [hm] using h
  · simp only [hm, if_false]
    refine List.Nodup.append h (List.nodup_singleton k) ?_
    intro a ha hb
    have hak : a = k := by simpa using hb
    subst hak
    exact hm ha

theorem alookup_isSome_iff {α : Type} (l : List (String × α)) (k : String) :
    (alookup l k).isSome = true ↔ k ∈ l.map Prod.fst := by
  induction l with
  | nil => simp [alookup]
  | cons p rest ih =>
    obtain ⟨k1, v1⟩ := p
    by_cases h : k1 = k
    · subst h
      simp [alookup]
    · simp only [alookup, if_neg h, List.map_cons, List.mem_cons, ih]
      constructor
      · intro hh
        exact Or.inr hh
      · intro hh
        rcases hh with hh | hh
        · exact absurd hh.symm h
        · exact hh

theorem alookup_none_iff {α : Type} (l : List (String × α)) (k : String) :
    alookup l k = none ↔ ¬ k ∈ l.map Prod.fst := by
  rw [← alookup_isSome_iff]
  cases alookup l k <;> simp

theorem aset_of_not_mem {α : Type} (l : List (String × α)) (k : String) (v : α)
    (h : ¬ k ∈ l.map Prod.fst) : aset l k v = l ++ [(k, v)] := by
  induction l with
  | nil => simp [aset]
  | cons p rest ih =>
    obtain ⟨k1, v1⟩ := p
    simp only [List.map_cons, List.mem_cons] at h
    push_neg at h
    have h1 : ¬ (k1 = k) := fun hh => h.1 hh.symm
    simp [aset, h1, ih h.2]

theorem aset_aset_same {α : Type} (l : List (String × α)) (k : String) (v : α) :
    aset (aset l k v) k v = aset l k v := by
  induction l with
  | nil => simp [aset]
  | cons p rest ih =>
    obtain ⟨k1, v1⟩ := p
    by_cases h : k1 = k
    · subst h
      simp [aset]
    · simp [aset, h, ih]

theorem alookup_of_nodup_mem {α : Type} (l : List (String × α)) (k : String) (v : α)
    (hnd : (l.map Prod.fst).Nodup) (hm : (k, v) ∈ l) : alookup l k = some v := by
  induction l with
  | nil => simp at hm
  | cons p rest ih =>
    obtain ⟨k1, v1⟩ := p
    simp only [List.map_cons, List.nodup_cons] at hnd
    rcases List.mem_cons.mp hm with hh | hh
    · have h1 : k1 = k := congrArg Prod.fst hh.symm
      have h2 : v1 = v := congrArg Prod.snd hh.symm
      subst h1; subst h2
      simp [alookup]
    · have hk : k1 ≠ k := by
        intro he
        subst he
        exact hnd.1 (List.mem_map.mpr ⟨(k1, v), hh, rfl⟩)
      simp [alookup, hk, ih hnd.2 hh]

@[simp] theorem Xml.tag_withText (x : Xml) (v : Option String) :
    (x.withText v).tag = x.tag := by
  cases x; rfl

@[simp] theorem Xml.text_withText (x : Xml) (v : Option String) :
    (x.withText v).text = v := by
  cases x; rfl

@[simp] theorem Xml.children_withText (x : Xml) (v : Option String) :
    (x.withText v).children = x.children := by
  cases x; rfl

@[simp] theorem Xml.tag_withChildren (x : Xml) (cs : List Xml) :
    (x.withChildren cs).tag = x.tag := by
  cases x; rfl

@[simp] theorem Xml.text_withChildren (x : Xml) (cs : List Xml) :
    (x.withChildren cs).text = x.text := by
  cases x; rfl

@[simp] theorem Xml.children_withChildren (x : Xml) (cs : List Xml) :
    (x.withChildren cs).children = cs := by
  cases x; rfl

@[simp] theorem Xml.find_withChildren (x : Xml) (cs : List Xml) (name : String) :
    (x.withChildren cs).find name = findList name cs := by
  cases x; rfl

theorem findList_tag {name : String} : ∀ {cs : List Xml} {c : Xml},
    findList name cs = some c → c.tag = name := by
  intro cs
  induction cs with
  | nil => intro c h; simp [findList] at h
  | cons a as ih =>
    intro c h
    by_cases ha : a.tag = name
    · simp [findList, ha] at h
      subst h; exact ha
    · simp only [findList, if_neg ha] at h
      exact ih h

theorem findList_append_skip {name : String} : ∀ {l1 : List Xml} (l2 : List Xml),
    (∀ x ∈ l1, ¬ x.tag = name) → findList name (l1 ++ l2) = findList name l2 := by
  intro l1
  induction l1 with
  | nil => intro l2 _; rfl
  | cons a as ih =>
    intro l2 h
    have ha := h a (List.mem_cons_self a as)
    simp only [List.cons_append, findList, if_neg ha]
    exact ih l2 (fun x hx => h x (List.mem_cons_of_mem a hx))

theorem findList_of_decomp {name : String} {l1 l2 : List Xml} {c : Xml}
    (h1 : ∀ x ∈ l1, ¬ x.tag = name) (h2 : c.tag = name) :
    findList name (l1 ++ c :: l2) = some c := by
  rw [findList_append_skip (c :: l2) h1]
  simp [findList, h2]

theorem updateFind_ok_decomp {err name : String} {f : Xml → Except String Xml} :
    ∀ {cs cs2 : List Xml}, updateFind err name f cs = .ok cs2 →
    ∃ l1 c c2 l2, cs = l1 ++ c :: l2 ∧ cs2 = l1 ++ c2 :: l2 ∧
      (∀ x ∈ l1, ¬ x.tag = name) ∧ c.tag = name ∧ f c = .ok c2 := by
  intro cs
  induction cs with
  | nil => intro cs2 h; simp [updateFind] at h
  | cons a as ih =>
    intro cs2 h
    by_cases ha : a.tag = name
    · simp only [updateFind, if_pos ha] at h
      cases hf : f a with
      | error e => rw [hf] at h; exact absurd h (by simp)
      | ok c2 =>
        rw [hf] at h
        simp only [Except.ok.injEq] at h
        exact ⟨[], a, c2, as, by simp, by simp [h.symm], by simp, ha, hf⟩
    · simp only [updateFind, if_neg ha] at h
      cases hr : updateFind err name f as with
      | error e => rw [hr] at h; exact absurd h (by simp)
      | ok cs3 =>
        rw [hr] at h
        simp only [Except.ok.injEq] at h
        obtain ⟨l1, c, c2, l2, hcs, hcs2, hl1, hc, hf⟩ := ih hr
        refine ⟨a :: l1, c, c2, l2, by simp [hcs], by simp [hcs2, h.symm], ?_, hc, hf⟩
        intro x hx
        rcases List.mem_cons.mp hx with hh | hh
        · subst hh; exact ha
        · exact hl1 x hh

theorem updateFind_ok_of_findList {err name : String} {f : Xml → Except String Xml} :
    ∀ {cs : List Xml} {el res : Xml}, findList name cs = some el → f el = .ok res →
    res.tag = el.tag →
    ∃ cs2, updateFind err name f cs = .ok cs2 ∧ findList name cs2 = some res ∧
      (∀ nm, ¬ nm = name → findList nm cs2 = findList nm cs) := by
  intro cs
  induction cs with
  | nil => intro el res h _ _; simp [findList] at h
  | cons a as ih =>
    intro el res h hf htag
    by_cases ha : a.tag = name
    · simp only [findList, if_pos ha, Option.some.injEq] at h
      subst h
      refine ⟨res :: as, ?_, ?_, ?_⟩
      · simp [updateFind, ha, hf]
      · simp [findList, htag.trans ha]
      · intro nm hnm
        have h1 : ¬ a.tag = nm := by rw [ha]; exact fun hh => hnm hh.symm
        have h2 : ¬ res.tag = nm := by rw [htag, ha]; exact fun hh => hnm hh.symm
        simp only [findList, if_neg h1, if_neg h2]
    · simp only [findList, if_neg ha] at h
      obtain ⟨cs3, h1, h2, h3⟩ := ih h hf htag
      refine ⟨a :: cs3, ?_, ?_, ?_⟩
      · simp [updateFind, ha, h1]
      · simp [findList, ha, h2]
      · intro nm hnm
        by_cases han : a.tag = nm
        · simp [findList, han]
        · simp [findList, han, h3 nm hnm]

theorem updateFind_error_of_findList {err name : String} {f : Xml → Except String Xml} :
    ∀ {cs : List Xml} {el : Xml} {e : String}, findList name cs = some el →
    f el = .error e → updateFind err name f cs = .error e := by
  intro cs
  induction cs with
  | nil => intro el e h _; simp [findList] at h
  | cons a as ih =>
    intro el e h hf
    by_cases ha : a.tag = name
    · simp only [findList, if_pos ha, Option.some.injEq] at h
      subst h
      simp [updateFind, ha, hf]
    · simp only [findList, if_neg ha] at h
      simp [updateFind, ha, ih h hf]

theorem updateFind_error_of_none {err name : String} {f : Xml → Except String Xml} :
    ∀ {cs : List Xml}, findList name cs = none → updateFind err name f cs = .error err := by
  intro cs
  induction cs with
  | nil => intro _; rfl
  | cons a as ih =>
    intro h
    by_cases ha : a.tag = name
    · simp [findList, ha] at h
    · simp only [findList, if_neg ha] at h
      simp [updateFind, ha, ih h]

theorem nthOpt_append_right {α : Type} : ∀ (l1 l2 : List α) (i : Nat),
    nthOpt (l1 ++ l2) (l1.length + i) = nthOpt l2 i := by
  intro l1
  induction l1 with
  | nil => intro l2 i; simp [nthOpt]
  | cons a as ih =>
    intro l2 i
    have : as.length + 1 + i = (as.length + i) + 1 := by omega
    simp [nthOpt, List.length_cons, this, ih]

theorem mapExcept_ok_nth {α β : Type} {f : α → Except String β} :
    ∀ {l : List α} {l2 : List β}, mapExcept f l = .ok l2 →
    ∀ i a, nthOpt l i = some a → ∃ b, f a = .ok b ∧ nthOpt l2 i = some b := by
  intro l
  induction l with
  | nil => intro l2 _ i a h; simp [nthOpt] at h
  | cons x xs ih =>
    intro l2 h i a hn
    cases hf : f x with
    | error e => rw [mapExcept, hf] at h; exact absurd h (by simp)
    | ok b =>
      rw [mapExcept, hf] at h
      cases hr : mapExcept f xs with
      | error e => rw [hr] at h; exact absurd h (by simp)
      | ok bs =>
        rw [hr] at h
        simp only [Except.ok.injEq] at h
        subst h
        cases i with
        | zero =>
          simp only [nthOpt, Option.some.injEq] at hn
          subst hn
          exact ⟨b, hf, rfl⟩
        | succ j =>
          simp only [nthOpt] at hn ⊢
          exact ih hr j a hn

theorem mapExcept_ok_mem {α β : Type} {f : α → Except String β} :
    ∀ {l : List α} {l2 : List β}, mapExcept f l = .ok l2 →
    ∀ a ∈ l, ∃ b, f a = .ok b ∧ b ∈ l2 := by
  intro l
  induction l with
  | nil => intro l2 _ a h; simp at h
  | cons x xs ih =>
    intro l2 h a ha
    cases hf : f x with
    | error e => rw [mapExcept, hf] at h; exact absurd h (by simp)
    | ok b =>
      rw [mapExcept, hf] at h
      cases hr : mapExcept f xs with
      | error e => rw [hr] at h; exact absurd h (by simp)
      | ok bs =>
        rw [hr] at h
        simp only [Except.ok.injEq] at h
        subst h
        rcases List.mem_cons.mp ha with hh | hh
        · subst hh; exact ⟨b, hf, List.mem_cons_self b bs⟩
        · obtain ⟨b2, hb1, hb2⟩ := ih hr a hh
          exact ⟨b2, hb1, List.mem_cons_of_mem b hb2⟩

theorem foldExcept_append {σ α : Type} (f : σ → α → Except String σ) :
    ∀ (l1 l2 : List α) (s : σ),
    foldExcept f s (l1 ++ l2) =
      (match foldExcept f s l1 with
       | .error e => .error e
       | .ok s2 => foldExcept f s2 l2) := by
  intro l1
  induction l1 with
  | nil => intro l2 s; simp [foldExcept]
  | cons a as ih =>
    intro l2 s
    simp only [List.cons_append, foldExcept]
    cases hf : f s a with
    | error e => rfl
    | ok s2 => exact ih l2 s2

theorem setFindText_spec {err name : String} {v : Option String} {rec el : Xml}
    (hfind : rec.find name = some el) :
    ∃ rec2, setFindText err name v rec = .ok rec2 ∧ rec2.tag = rec.tag ∧
      rec2.find name = some (el.withText v) ∧
      (∀ nm, ¬ nm = name → rec2.find nm = rec.find nm) := by
  obtain ⟨cs2, h1, h2, h3⟩ :=
    @updateFind_ok_of_findList err name (fun e => .ok (e.withText v)) _ _ _
      hfind rfl (Xml.tag_withText el v)
  refine ⟨rec.withChildren cs2, ?_, by simp, by simp [h2], ?_⟩
  · simp [setFindText, h1]
  · intro nm hnm
    simp [Xml.find, h3 nm hnm]

theorem setFirstChildText_spec {name : String} {v : Option String} {rec el c : Xml}
    {cs : List Xml} (hfind : rec.find name = some el) (hc : el.children = c :: cs) :
    ∃ rec2, setFirstChildText name v rec = .ok rec2 ∧ rec2.tag = rec.tag ∧
      rec2.find name = some (el.withChildren (c.withText v :: cs)) ∧
      (∀ nm, ¬ nm = name → rec2.find nm = rec.find nm) := by
  have hstep : (fun e : Xml =>
      match e.children with
      | [] => Except.error "StopIteration"
      | c2 :: cs2 => Except.ok (e.withChildren (c2.withText v :: cs2))) el =
      .ok (el.withChildren (c.withText v :: cs)) := by
    simp [hc]
  obtain ⟨cs2, h1, h2, h3⟩ :=
    @updateFind_ok_of_findList "TypeError" name
      (fun e : Xml =>
        match e.children with
        | [] => Except.error "StopIteration"
        | c2 :: cs2 => Except.ok (e.withChildren (c2.withText v :: cs2)))
      _ _ _ hfind hstep (Xml.tag_withChildren el (c.withText v :: cs))
  refine ⟨rec.withChildren cs2, ?_, by simp, by simp [h2], ?_⟩
  · simp only [setFirstChildText, Xml.find] at h1 ⊢
    rw [h1]
  · intro nm hnm
    simp [Xml.find, h3 nm hnm]

theorem substituteRecord_id {tankmen : List (String × Tankman)} {nation : String}
    {subs : List (String × String)} {rec : Xml}
    (h : alookup subs rec.tag = none) :
    substituteRecord tankmen nation subs rec = .ok rec := by
  simp [substituteRecord, h]

theorem substituteRecord_spec {tankmen : List (String × Tankman)} {nation : String}
    {subs : List (String × String)} {rec : Xml} {tslug : String}
    {source target : Tankman} {tdata : SubstitutionData} {rawTags : String}
    {tagsEl fnEl lnEl icEl : Xml}
    (hm : alookup subs rec.tag = some tslug)
    (hsrc : alookup tankmen rec.tag = some source)
    (htgt : alookup tankmen tslug = some target)
    (hdata : alookup target.nation_data nation = some tdata)
    (htags : tdata.tags = some rawTags)
    (h1 : rec.find "tags" = some tagsEl)
    (h2 : rec.find "firstNames" = some fnEl) (h2c : fnEl.children ≠ [])
    (h3 : rec.find "lastNames" = some lnEl) (h3c : lnEl.children ≠ [])
    (h4 : rec.find "icons" = some icEl) (h4c : icEl.children ≠ []) :
    ∃ rec4, substituteRecord tankmen nation subs rec = .ok rec4 ∧
      findTagText rec4 "tags" =
        some (some (pyReplace rawTags source.voice_tag target.voice_tag)) ∧
      findFirstChildText rec4 "firstNames" = some tdata.first_name ∧
      findFirstChildText rec4 "lastNames" = some tdata.last_name ∧
      findFirstChildText rec4 "icons" = some tdata.icon ∧
      (∀ nm, ¬ nm = "tags" → ¬ nm = "firstNames" → ¬ nm = "lastNames" →
        ¬ nm = "icons" → rec4.find nm = rec.find nm) ∧
      rec4.tag = rec.tag := by
  obtain ⟨fc, fcs, hfc⟩ : ∃ c cs, fnEl.children = c :: cs := by
    cases hfe : fnEl.children with
    | nil => exact absurd hfe h2c
    | cons c cs => exact ⟨c, cs, rfl⟩
  obtain ⟨lc, lcs, hlc⟩ : ∃ c cs, lnEl.children = c :: cs := by
    cases hle : lnEl.children with
    | nil => exact absurd hle h3c
    | cons c cs => exact ⟨c, cs, rfl⟩
  obtain ⟨ic2, ics, hic⟩ : ∃ c cs, icEl.children = c :: cs := by
    cases hie : icEl.children with
    | nil => exact absurd hie h4c
    | cons c cs => exact ⟨c, cs, rfl⟩
  obtain ⟨rec1, e1, etag1, efind1, epres1⟩ :=
    @setFindText_spec "AttributeError" "tags"
      (some (pyReplace rawTags source.voice_tag target.voice_tag)) rec tagsEl h1
  have hf1 : rec1.find "firstNames" = some fnEl := by
    rw [epres1 "firstNames" (by decide)]; exact h2
  obtain ⟨rec2, e2, etag2, efind2, epres2⟩ :=
    setFirstChildText_spec (v := tdata.first_name) hf1 hfc
  have hf2 : rec2.find "lastNames" = some lnEl := by
    rw [epres2 "lastNames" (by decide), epres1 "lastNames" (by decide)]; exact h3
  obtain ⟨rec3, e3, etag3, efind3, epres3⟩ :=
    setFirstChildText_spec (v := tdata.last_name) hf2 hlc
  have hf3 : rec3.find "icons" = some icEl := by
    rw [epres3 "icons" (by decide), epres2 "icons" (by decide),
        epres1 "icons" (by decide)]; exact h4
  obtain ⟨rec4, e4, etag4, efind4, epres4⟩ :=
    setFirstChildText_spec (v := tdata.icon) hf3 hic
  refine ⟨rec4, ?_, ?_, ?_, ?_, ?_, ?_, ?_⟩
  · simp only [substituteRecord, hm, hsrc, htgt, hdata, htags, e1, e2, e3, e4]
  · have ht : rec4.find "tags" = some (tagsEl.withText
        (some (pyReplace rawTags source.voice_tag target.voice_tag))) := by
      rw [epres4 "tags" (by decide), epres3 "tags" (by decide),
          epres2 "tags" (by decide)]; exact efind1
    simp [findTagText, ht]
  · have hfn : rec4.find "firstNames" =
        some (fnEl.withChildren (fc.withText tdata.first_name :: fcs)) := by
      rw [epres4 "firstNames" (by decide), epres3 "firstNames" (by decide)]
      exact efind2
    simp [findFirstChildText, hfn]
  · have hln : rec4.find "lastNames" =
        some (lnEl.withChildren (lc.withText tdata.last_name :: lcs)) := by
      rw [epres4 "lastNames" (by decide)]; exact efind3
    simp [findFirstChildText, hln]
  · simp [findFirstChildText, efind4]
  · intro nm hn1 hn2 hn3 hn4
    rw [epres4 nm hn4, epres3 nm hn3, epres2 nm hn2, epres1 nm hn1]
  · rw [etag4, etag3, etag2, etag1]

theorem substituteRecord_keyError_target {tankmen : List (String × Tankman)}
    {nation : String} {subs : List (String × String)} {rec : Xml} {tslug : String}
    {source target : Tankman}
    (hm : alookup subs rec.tag = some tslug)
    (hsrc : alookup tankmen rec.tag = some source)
    (htgt : alookup tankmen tslug = some target)
    (hgap : alookup target.nation_data nation = none) :
    substituteRecord tankmen nation subs rec = .error "KeyError" := by
  simp [substituteRecord, hm, hsrc, htgt, hgap]

theorem substituteDoc_parts {st : AppState} {nation : String}
    {subs : List (String × String)} {doc2 : Xml}
    (h : substituteDoc st nation subs = .ok doc2) :
    ∃ doc cs2, alookup st.nation_xmls nation = some doc ∧
      updateFind "TypeError" "premiumGroups" (substitutePg st.tankmen nation subs)
        doc.children = .ok cs2 ∧
      doc2 = doc.withChildren cs2 := by
  cases hdoc : alookup st.nation_xmls nation with
  | none => simp [substituteDoc, hdoc] at h
  | some doc =>
    simp only [substituteDoc, hdoc] at h
    cases hup : updateFind "TypeError" "premiumGroups"
        (substitutePg st.tankmen nation subs) doc.children with
    | error e => rw [hup] at h; exact absurd h (by simp)
    | ok cs2 =>
      rw [hup] at h
      simp only [Except.ok.injEq] at h
      exact ⟨doc, cs2, rfl, hup, h.symm⟩

theorem substituteS_state {st : AppState} {nation : String}
    {subs : List (String × String)} {out : String} {st2 : AppState}
    (h : substituteS st nation subs = .ok (out, st2)) :
    st2 = st ∧ ∃ doc2, substituteDoc st nation subs = .ok doc2 ∧
      out = serializeXml doc2 := by
  cases hd : substituteDoc st nation subs with
  | error e => rw [substituteS, hd] at h; exact absurd h (by simp)
  | ok doc2 =>
    rw [substituteS, hd] at h
    simp only [Except.ok.injEq, Prod.mk.injEq] at h
    exact ⟨h.2.symm, doc2, rfl, h.1.symm⟩

theorem substituteDoc_find_pg {st : AppState} {nation : String}
    {subs : List (String × String)} {doc pg doc2 : Xml}
    (hdoc : alookup st.nation_xmls nation = some doc)
    (hpg : doc.find "premiumGroups" = some pg)
    (h : substituteDoc st nation subs = .ok doc2) :
    ∃ cs2, mapExcept (substituteRecord st.tankmen nation subs) pg.children = .ok cs2 ∧
      doc2.find "premiumGroups" = some (pg.withChildren cs2) ∧ doc2.tag = doc.tag := by
  obtain ⟨doc0, csAll, hdoc0, hup, hdoc2⟩ := substituteDoc_parts h
  rw [hdoc0] at hdoc
  injection hdoc with hdoc
  rw [hdoc] at hup hdoc2
  obtain ⟨l1, c, c2, l2, hcs, hcs2, hl1, hc, hf⟩ := updateFind_ok_decomp hup
  have hfl : findList "premiumGroups" doc.children = some c := by
    rw [hcs]; exact findList_of_decomp hl1 hc
  have hcpg : c = pg := by
    rw [Xml.find, hfl] at hpg
    exact Option.some_inj.mp hpg
  rw [hcpg] at hf hcs hc
  cases hmap : mapExcept (substituteRecord st.tankmen nation subs) pg.children with
  | error e => rw [substitutePg, hmap] at hf; exact absurd hf (by simp)
  | ok cs2 =>
    rw [substitutePg, hmap] at hf
    simp only [Except.ok.injEq] at hf
    refine ⟨cs2, rfl, ?_, by rw [hdoc2]; simp⟩
    rw [hdoc2]
    simp only [Xml.find_withChildren]
    rw [hcs2, ← hf]
    exact findList_of_decomp hl1 (by simp [hc])

/-- C1: for every nation and mapping, and every record under
`premiumGroups` whose slug is a key of the mapping (with registered source
and target and target nation data present), `substitute` sets that
record's tags text to the target's raw nation tags string with every
occurrence of the source voice tag literally replaced by the target voice
tag, overwrites the text of the first child of `firstNames`, `lastNames`
and `icons` with the target's raw nation-specific values, leaves the
record's other children untouched, and returns the full document
serialized to text. -/
theorem c1_substitute {st : AppState} {nation : String}
    {subs : List (String × String)} {rec : Xml} {tslug : String}
    {source target : Tankman} {tdata : SubstitutionData} {rawTags : String}
    {tagsEl fnEl lnEl icEl : Xml}
    (hm : alookup subs rec.tag = some tslug)
    (hsrc : alookup st.tankmen rec.tag = some source)
    (htgt : alookup st.tankmen tslug = some target)
    (hdata : alookup target.nation_data nation = some tdata)
    (htags : tdata.tags = some rawTags)
    (h1 : rec.find "tags" = some tagsEl)
    (h2 : rec.find "firstNames" = some fnEl) (h2c : fnEl.children ≠ [])
    (h3 : rec.find "lastNames" = some lnEl) (h3c : lnEl.children ≠ [])
    (h4 : rec.find "icons" = some icEl) (h4c : icEl.children ≠ []) :
    ∃ rec4, substituteRecord st.tankmen nation subs rec = .ok rec4 ∧
      findTagText rec4 "tags" =
        some (some (pyReplace rawTags source.voice_tag target.voice_tag)) ∧
      findFirstChildText rec4 "firstNames" = some tdata.first_name ∧
      findFirstChildText rec4 "lastNames" = some tdata.last_name ∧
      findFirstChildText rec4 "icons" = some tdata.icon ∧
      (∀ nm, ¬ nm = "tags" → ¬ nm = "firstNames" → ¬ nm = "lastNames" →
        ¬ nm = "icons" → rec4.find nm = rec.find nm) ∧
      rec4.tag = rec.tag ∧
      (∀ doc pg i out st2, alookup st.nation_xmls nation = some doc →
        doc.find "premiumGroups" = some pg →
        nthOpt pg.children i = some rec →
        substituteS st nation subs = .ok (out, st2) →
        ∃ doc2 cs2, substituteDoc st nation subs = .ok doc2 ∧
          doc2.find "premiumGroups" = some (pg.withChildren cs2) ∧
          nthOpt cs2 i = some rec4 ∧ out = serializeXml doc2) := by
  obtain ⟨rec4, e0, p1, p2, p3, p4, p5, p6⟩ :=
    substituteRecord_spec hm hsrc htgt hdata htags h1 h2 h2c h3 h3c h4 h4c
  refine ⟨rec4, e0, p1, p2, p3, p4, p5, p6, ?_⟩
  intro doc pg i out st2 hdoc hpg hi hs
  obtain ⟨hst2, doc2, hd2, hout⟩ := substituteS_state hs
  obtain ⟨cs2, hmap, hfind, _⟩ := substituteDoc_find_pg hdoc hpg hd2
  obtain ⟨b, hb1, hb2⟩ := mapExcept_ok_nth hmap i rec hi
  rw [e0] at hb1
  injection hb1 with hb1
  rw [← hb1] at hb2
  exact ⟨doc2, cs2, hd2, hfind, hb2, hout⟩

/-- Witness for C1 at the sample state: remapping `slugA` onto `slugB` in
nation usa rewrites the record as specified. -/
theorem c1_witness :
    alookup [("slugA", "slugB")] (Xml.tag recA) = some "slugB" ∧
    alookup sampleState.tankmen (Xml.tag recA) = some tkA ∧
    alookup sampleState.tankmen "slugB" = some tkB ∧
    alookup tkB.nation_data "usa" = some sdB ∧
    ∃ rec4, substituteRecord sampleState.tankmen "usa" [("slugA", "slugB")] recA =
        .ok rec4 ∧
      findTagText rec4 "tags" = some (some (pyReplace "v2" "v1" "v2")) ∧
      findFirstChildText rec4 "firstNames" = some (some "#nav:fb") ∧
      findFirstChildText rec4 "lastNames" = some (some "#nav:lb") ∧
      findFirstChildText rec4 "icons" = some (some "iconB") ∧
      (∀ nm, ¬ nm = "tags" → ¬ nm = "firstNames" → ¬ nm = "lastNames" →
        ¬ nm = "icons" → rec4.find nm = recA.find nm) ∧
      rec4.tag = Xml.tag recA ∧
      (∀ doc pg i out st2, alookup sampleState.nation_xmls "usa" = some doc →
        doc.find "premiumGroups" = some pg →
        nthOpt pg.children i = some recA →
        substituteS sampleState "usa" [("slugA", "slugB")] = .ok (out, st2) →
        ∃ doc2 cs2, substituteDoc sampleState "usa" [("slugA", "slugB")] = .ok doc2 ∧
          doc2.find "premiumGroups" = some (pg.withChildren cs2) ∧
          nthOpt cs2 i = some rec4 ∧ out = serializeXml doc2) :=
  ⟨rfl, rfl, rfl, rfl,
    @c1_substitute sampleState "usa" [("slugA", "slugB")] recA "slugB"
      tkA tkB sdB "v2" (.elem "tags" (some "v1 other") [])
      (.elem "firstNames" none [.elem "first" (some "#nav:fa") []])
      (.elem "lastNames" none [.elem "last" (some "#nav:la") []])
      (.elem "icons" none [.elem "icon" (some " iconA ") []])
      rfl rfl rfl rfl rfl rfl rfl (List.cons_ne_nil _ _) rfl
      (List.cons_ne_nil _ _) rfl (List.cons_ne_nil _ _)⟩

/-- C5: `substitute` leaves every record whose slug is not a key of the
mapping unchanged in the output document, and mutates neither the cached
verbatim nation documents nor the tankman directory: the state after the
call equals the state before it. -/
theorem c5_frame {st : AppState} {nation : String}
    {subs : List (String × String)} {out : String} {st2 : AppState}
    (h : substituteS st nation subs = .ok (out, st2)) :
    st2.nation_xmls = st.nation_xmls ∧ st2.tankmen = st.tankmen ∧
    (∀ doc pg i rec, alookup st.nation_xmls nation = some doc →
      doc.find "premiumGroups" = some pg →
      nthOpt pg.children i = some rec →
      alookup subs rec.tag = none →
      ∃ doc2 cs2, substituteDoc st nation subs = .ok doc2 ∧
        doc2.find "premiumGroups" = some (pg.withChildren cs2) ∧
        nthOpt cs2 i = some rec) := by
  obtain ⟨hst2, doc2, hd2, _⟩ := substituteS_state h
  subst hst2
  refine ⟨rfl, rfl, ?_⟩
  intro doc pg i rec hdoc hpg hi hnone
  obtain ⟨cs2, hmap, hfind, _⟩ := substituteDoc_find_pg hdoc hpg hd2
  obtain ⟨b, hb1, hb2⟩ := mapExcept_ok_nth hmap i rec hi
  rw [substituteRecord_id hnone] at hb1
  injection hb1 with hb1
  rw [← hb1] at hb2
  exact ⟨doc2, cs2, hd2, hfind, hb2⟩

/-- Witness for C5 at the sample state: the unmapped record `slugB`
passes through unchanged and the state is preserved. -/
theorem c5_witness :
    substituteS sampleState "usa" [("slugA", "slugB")] =
      .ok (sampleOut, sampleState) ∧
    sampleState.nation_xmls = sampleState.nation_xmls ∧
    sampleState.tankmen = sampleState.tankmen ∧
    (∀ doc pg i rec, alookup sampleState.nation_xmls "usa" = some doc →
      doc.find "premiumGroups" = some pg →
      nthOpt pg.children i = some rec →
      alookup [("slugA", "slugB")] rec.tag = none →
      ∃ doc2 cs2, substituteDoc sampleState "usa" [("slugA", "slugB")] = .ok doc2 ∧
        doc2.find "premiumGroups" = some (pg.withChildren cs2) ∧
        nthOpt cs2 i = some rec) :=
  ⟨rfl, @c5_frame sampleState "usa" [("slugA", "slugB")] sampleOut
      sampleState rfl⟩

/-- C6: calling `substitute` twice in succession with the same arguments
on an unmodified cache returns byte-identical strings both times, since
each call starts from the pristine stored document: a second call on the
state left by a successful first call returns the same output and state. -/
theorem c6_idempotent {st : AppState} {nation : String}
    {subs : List (String × String)} {out1 : String} {st1 : AppState}
    (h : substituteS st nation subs = .ok (out1, st1)) :
    substituteS st1 nation subs = .ok (out1, st1) := by
  obtain ⟨hst1, _, _, _⟩ := substituteS_state h
  rw [hst1]
  rw [hst1] at h
  exact h

/-- Witness for C6 at the sample state. -/
theorem c6_witness :
    substituteS sampleState "usa" [("slugA", "slugB")] =
      .ok (sampleOut, sampleState) :=
  @c6_idempotent sampleState "usa" [("slugA", "slugB")] sampleOut
    sampleState rfl

/-- C10: whenever the source tankman of a mapped record resolves but the
target tankman has no `nation_data` entry for the nation being rewritten,
the lookup `target.nation_data[nation]` in `substitute` raises an uncaught
`KeyError`; `create_modpack` checks only that the target slug is
registered, not that the target covers every nation of the source, so such
mappings are accepted and fail. -/
theorem c10_nation_gap {tankmen : List (String × Tankman)} {nation : String}
    {subs : List (String × String)} {rec : Xml} {tslug : String}
    {source target : Tankman}
    (hm : alookup subs rec.tag = some tslug)
    (hsrc : alookup tankmen rec.tag = some source)
    (htgt : alookup tankmen tslug = some target)
    (hgap : alookup target.nation_data nation = none) :
    substituteRecord tankmen nation subs rec = .error "KeyError" :=
  substituteRecord_keyError_target hm hsrc htgt hgap

/-- Witness for C10: the form `{s: t}` passes every check of
`create_modpack` (both slugs registered, target nonempty) yet the
resulting `substitute` call raises `KeyError`, and so does the whole
modpack build. -/
theorem c10_witness :
    alookup gapState.tankmen "s" = some gapTkS ∧
    alookup gapState.tankmen "t" = some gapTkT ∧
    alookup gapTkT.nation_data "us" = none ∧
    substituteRecord gapState.tankmen "us" [("s", "t")] gapRecS =
      .error "KeyError" ∧
    create_modpack_files gapState [("s", "t")] = .error "KeyError" :=
  ⟨rfl, rfl, rfl,
    @c10_nation_gap gapState.tankmen "us" [("s", "t")] gapRecS "t"
      gapTkS gapTkT rfl rfl rfl rfl,
    rfl⟩

theorem registerTankman_of_isSome {mn : String}
    {mo : List (String × List (String × String))}
    {slug voice_tag : String} {fn sn ic : Option String}
    {tm : List (String × Tankman)} (h : (alookup tm slug).isSome = true) :
    registerTankman mn mo slug voice_tag fn sn ic tm = .ok tm := by
  simp [registerTankman, h]

theorem registerTankman_ok_new {mn : String}
    {mo : List (String × List (String × String))}
    {slug voice_tag : String} {fn sn ic : Option String}
    {tm tm1 : List (String × Tankman)} (hnone : alookup tm slug = none)
    (h : registerTankman mn mo slug voice_tag fn sn ic tm = .ok tm1) :
    ∃ snS lnRes fnS fnRes icS, sn = some snS ∧
      get_name mn mo (pyStrip snS) = .ok lnRes ∧ fn = some fnS ∧
      get_name mn mo (pyStrip fnS) = .ok fnRes ∧ ic = some icS ∧
      tm1 = aset tm slug
        { first_name := fnRes,
          last_name := if lnRes = some "?empty?" then some "" else lnRes,
          icon := pyStrip icS, slug := slug, voice_tag := voice_tag,
          nation_data := [] } := by
  rw [registerTankman.eq_def] at h
  rw [hnone] at h
  simp only [Option.isSome_none, Bool.false_eq_true, if_false] at h
  cases sn with
  | none => exact absurd h (by simp)
  | some snS =>
    simp only at h
    cases hln : get_name mn mo (pyStrip snS) with
    | error e => rw [hln] at h; exact absurd h (by simp)
    | ok lnRes =>
      rw [hln] at h
      simp only at h
      cases fn with
      | none => exact absurd h (by simp)
      | some fnS =>
        simp only at h
        cases hfn : get_name mn mo (pyStrip fnS) with
        | error e => rw [hfn] at h; exact absurd h (by simp)
        | ok fnRes =>
          rw [hfn] at h
          simp only at h
          cases ic with
          | none => exact absurd h (by simp)
          | some icS =>
            simp only [Except.ok.injEq] at h
            exact ⟨snS, lnRes, fnS, fnRes, icS, rfl, hln, rfl, hfn, rfl, h.symm⟩

theorem attachNation_ok {nation : String} {rec : Xml} {fn sn ic : Option String}
    {tm1 : List (String × Tankman)} {t1 : Tankman}
    (h : alookup tm1 rec.tag = some t1) :
    attachNation nation rec fn sn ic tm1 =
      .ok (aset tm1 rec.tag
            (withNationData t1 (aset t1.nation_data nation (subDataOf fn sn ic rec)))) := by
  rw [attachNation.eq_def, h]
  rfl

theorem processRecord_ok {choose : List String → Option String} {mn : String}
    {mo : List (String × List (String × String))} {voice_tags : List String}
    {nation : String} {tm tm2 : List (String × Tankman)} {rec : Xml}
    (h : processRecord choose mn mo voice_tags nation tm rec = .ok tm2) :
    (qualifies choose voice_tags rec = false ∧ tm2 = tm) ∨
    (qualifies choose voice_tags rec = true ∧ ∃ sd t,
      rawSubData rec = some sd ∧
      alookup tm2 rec.tag = some t ∧
      (∀ s2, ¬ s2 = rec.tag → alookup tm2 s2 = alookup tm s2) ∧
      t.nation_data =
        aset (match alookup tm rec.tag with
              | some t0 => t0.nation_data
              | none => []) nation sd ∧
      (∀ t0, alookup tm rec.tag = some t0 →
        t.first_name = t0.first_name ∧ t.last_name = t0.last_name ∧
        t.icon = t0.icon ∧ t.voice_tag = t0.voice_tag) ∧
      tm2.map Prod.fst =
        (if rec.tag ∈ tm.map Prod.fst then tm.map Prod.fst
         else tm.map Prod.fst ++ [rec.tag])) := by
  by_cases hrace : strContains rec.tag "race" = true
  · simp only [processRecord, hrace, if_true, Except.ok.injEq] at h
    left
    refine ⟨?_, h.symm⟩
    simp only [qualifies, hrace]
    rfl
  · have hrace2 : strContains rec.tag "race" = false := by
      revert hrace; cases strContains rec.tag "race" <;> simp
    cases htt : tagsTextOrDefault rec with
    | none =>
      simp only [processRecord, hrace2, htt, Bool.false_eq_true, if_false] at h
      exact Except.noConfusion h
    | some t =>
      cases hch : choose ((pySplit (pyStrip t)).filter
          (fun x => voice_tags.contains x)) with
      | none =>
        simp only [processRecord, hrace2, htt, hch, Bool.false_eq_true, if_false,
          Except.ok.injEq] at h
        left
        refine ⟨?_, h.symm⟩
        simp only [qualifies, hrace2, htt, hch]
        rfl
      | some voice_tag =>
        by_cases hvt : voice_tag = ""
        · subst hvt
          simp only [processRecord, hrace2, htt, hch, Bool.false_eq_true, if_false,
            eq_self_iff_true, if_true, Except.ok.injEq] at h
          left
          refine ⟨?_, h.symm⟩
          simp only [qualifies, hrace2, htt, hch]
          rfl
        · have hqual : qualifies choose voice_tags rec = true := by
            simp only [qualifies, hrace2, htt, hch, Bool.not_false, Bool.true_and]
            exact bne_iff_ne.mpr hvt
          cases hfn : firstChildTextE rec "firstNames" with
          | error e =>
            simp only [processRecord, hrace2, htt, hch, hvt, hfn, Bool.false_eq_true,
              if_false] at h
            exact Except.noConfusion h
          | ok fn =>
            cases hsn : lastNameOf rec with
            | error e =>
              simp only [processRecord, hrace2, htt, hch, hvt, hfn, hsn,
                Bool.false_eq_true, if_false] at h
              exact Except.noConfusion h
            | ok sn =>
              cases hic : firstChildTextE rec "icons" with
              | error e =>
                simp only [processRecord, hrace2, htt, hch, hvt, hfn, hsn, hic,
                  Bool.false_eq_true, if_false] at h
                exact Except.noConfusion h
              | ok ic =>
                have hraw : rawSubData rec = some (subDataOf fn sn ic rec) := by
                  simp [rawSubData, hfn, hsn, hic, subDataOf]
                cases hreg : alookup tm rec.tag with
                | some t0 =>
                  have hrk : registerTankman mn mo rec.tag voice_tag fn sn ic tm =
                      .ok tm :=
                    registerTankman_of_isSome (by simp [hreg])
                  have hat := @attachNation_ok nation rec fn sn ic tm t0 hreg
                  simp only [processRecord, hrace2, htt, hch, hvt, hfn, hsn, hic,
                    hrk, hat, Bool.false_eq_true, if_false, Except.ok.injEq] at h
                  right
                  refine ⟨hqual, subDataOf fn sn ic rec,
                    withNationData t0
                      (aset t0.nation_data nation (subDataOf fn sn ic rec)),
                    hraw, ?_, ?_, ?_, ?_, ?_⟩
                  · rw [← h]
                    exact alookup_aset_self tm rec.tag _
                  · intro s2 hs2
                    rw [← h]
                    exact alookup_aset_ne tm rec.tag s2 _ hs2
                  · simp [withNationData, hreg]
                  · intro t1 ht1
                    injection ht1 with ht1
                    subst ht1
                    simp [withNationData]
                  · rw [← h, aset_keys]
                | none =>
                  cases hrk : registerTankman mn mo rec.tag voice_tag fn sn ic tm with
                  | error e =>
                    simp only [processRecord, hrace2, htt, hch, hvt, hfn, hsn, hic,
                      hrk, Bool.false_eq_true, if_false] at h
                    exact Except.noConfusion h
                  | ok tm1 =>
                    obtain ⟨snS, lnRes, fnS, fnRes, icS, _, _, _, _, _, htm1⟩ :=
                      registerTankman_ok_new hreg hrk
                    have hnewlook : alookup tm1 rec.tag = some
                        { first_name := fnRes,
                          last_name := if lnRes = some "?empty?" then some ""
                            else lnRes,
                          icon := pyStrip icS, slug := rec.tag,
                          voice_tag := voice_tag, nation_data := [] } := by
                      rw [htm1]
                      exact alookup_aset_self tm rec.tag _
                    have hat := @attachNation_ok nation rec fn sn ic tm1 _ hnewlook
                    simp only [processRecord, hrace2, htt, hch, hvt, hfn, hsn, hic,
                      hrk, hat, Bool.false_eq_true, if_false, Except.ok.injEq] at h
                    right
                    refine ⟨hqual, subDataOf fn sn ic rec,
                      withNationData
                        { first_name := fnRes,
                          last_name := if lnRes = some "?empty?" then some ""
                            else lnRes,
                          icon := pyStrip icS, slug := rec.tag,
                          voice_tag := voice_tag, nation_data := [] }
                        (aset [] nation (subDataOf fn sn ic rec)),
                      hraw, ?_, ?_, ?_, ?_, ?_⟩
                    · rw [← h]
                      exact alookup_aset_self tm1 rec.tag _
                    · intro s2 hs2
                      rw [← h]
                      rw [alookup_aset_ne tm1 rec.tag s2 _ hs2, htm1]
                      exact alookup_aset_ne tm rec.tag s2 _ hs2
                    · simp [withNationData, hreg]
                    · intro t1 ht1
                      exact absurd ht1 (by simp)
                    · have hknot : ¬ rec.tag ∈ tm.map Prod.fst :=
                        (alookup_none_iff tm rec.tag).mp hreg
                      have hk1 : tm1.map Prod.fst = tm.map Prod.fst ++ [rec.tag] := by
                        rw [htm1, aset_keys]
                        simp [hknot]
                      have hkin : rec.tag ∈ tm1.map Prod.fst := by
                        rw [hk1]; simp
                      rw [← h, aset_keys, if_pos hkin, hk1, if_neg hknot]

theorem qualIn_nil {choose : List String → Option String}
    {voice_tags : List String} {s2 : String} :
    ¬ QualIn choose voice_tags [] s2 := by
  rintro ⟨rec, hmem, _⟩
  simp at hmem

theorem qualIn_cons {choose : List String → Option String}
    {voice_tags : List String} {r : Xml} {rs : List Xml}
    {s2 : String} :
    QualIn choose voice_tags (r :: rs) s2 ↔
      ((r.tag = s2 ∧ qualifies choose voice_tags r = true) ∨ QualIn choose voice_tags rs s2) := by
  constructor
  · rintro ⟨rec, hmem, htag, hq⟩
    rcases List.mem_cons.mp hmem with hh | hh
    · subst hh; exact Or.inl ⟨htag, hq⟩
    · exact Or.inr ⟨rec, hh, htag, hq⟩
  · rintro (⟨htag, hq⟩ | ⟨rec, hmem, htag, hq⟩)
    · exact ⟨r, List.mem_cons_self r rs, htag, hq⟩
    · exact ⟨rec, List.mem_cons_of_mem r hmem, htag, hq⟩

theorem qualWith_cons {choose : List String → Option String}
    {voice_tags : List String} {r : Xml} {rs : List Xml}
    {s2 : String} {sd : SubstitutionData} :
    QualWith choose voice_tags (r :: rs) s2 sd ↔
      ((r.tag = s2 ∧ qualifies choose voice_tags r = true ∧ rawSubData r = some sd) ∨
        QualWith choose voice_tags rs s2 sd) := by
  constructor
  · rintro ⟨rec, hmem, htag, hq, hraw⟩
    rcases List.mem_cons.mp hmem with hh | hh
    · subst hh; exact Or.inl ⟨htag, hq, hraw⟩
    · exact Or.inr ⟨rec, hh, htag, hq, hraw⟩
  · rintro (⟨htag, hq, hraw⟩ | ⟨rec, hmem, htag, hq, hraw⟩)
    · exact ⟨r, List.mem_cons_self r rs, htag, hq, hraw⟩
    · exact ⟨rec, List.mem_cons_of_mem r hmem, htag, hq, hraw⟩

theorem nodup_append_singleton {l : List String} {a : String}
    (h : l.Nodup) (ha : ¬ a ∈ l) : (l ++ [a]).Nodup := by
  refine List.Nodup.append h (List.nodup_singleton a) ?_
  intro x hx hy
  have hxa : x = a := by simpa using hy
  subst hxa
  exact ha hx

theorem foldRecords_ok {choose : List String → Option String} {mn : String}
    {mo : List (String × List (String × String))} {voice_tags : List String}
    {nation : String} :
    ∀ {recs : List Xml} {tm tm2 : List (String × Tankman)},
    foldExcept (processRecord choose mn mo voice_tags nation) tm recs = .ok tm2 →
    ((tm.map Prod.fst).Nodup → (tm2.map Prod.fst).Nodup) ∧
    (∀ s2, (alookup tm2 s2).isSome = true ↔
      ((alookup tm s2).isSome = true ∨ QualIn choose voice_tags recs s2)) ∧
    (∀ s2 t0, alookup tm s2 = some t0 → ∃ t, alookup tm2 s2 = some t ∧
      t.first_name = t0.first_name ∧ t.last_name = t0.last_name ∧
      t.icon = t0.icon ∧ t.voice_tag = t0.voice_tag ∧
      (∀ nat2, ¬ nat2 = nation →
        alookup t.nation_data nat2 = alookup t0.nation_data nat2) ∧
      (∀ sd, alookup t.nation_data nation = some sd →
        alookup t0.nation_data nation = some sd ∨
          QualWith choose voice_tags recs s2 sd) ∧
      (alookup t.nation_data nation = none →
        alookup t0.nation_data nation = none ∧ ¬ QualIn choose voice_tags recs s2)) ∧
    (∀ s2 t, alookup tm s2 = none → alookup tm2 s2 = some t →
      (∀ nat2, ¬ nat2 = nation → alookup t.nation_data nat2 = none) ∧
      (∀ sd, alookup t.nation_data nation = some sd →
        QualWith choose voice_tags recs s2 sd) ∧
      (alookup t.nation_data nation).isSome = true) := by
  intro recs
  induction recs with
  | nil =>
    intro tm tm2 h
    rw [foldExcept] at h
    injection h with h
    subst h
    refine ⟨fun hh => hh, ?_, ?_, ?_⟩
    · intro s2
      constructor
      · intro hh; exact Or.inl hh
      · rintro (hh | hq)
        · exact hh
        · exact absurd hq qualIn_nil
    · intro s2 t0 h0
      refine ⟨t0, h0, rfl, rfl, rfl, rfl, fun _ _ => rfl, ?_, ?_⟩
      · intro sd hsd; exact Or.inl hsd
      · intro hnone; exact ⟨hnone, qualIn_nil⟩
    · intro s2 t h0 h1
      rw [h0] at h1
      exact absurd h1 (by simp)
  | cons r rs ih =>
    intro tm tm2 h
    rw [foldExcept] at h
    cases hstep : processRecord choose mn mo voice_tags nation tm r with
    | error e => rw [hstep] at h; exact absurd h (by simp)
    | ok tm1 =>
      rw [hstep] at h
      obtain ⟨ihNodup, ihPres, ihStable, ihNew⟩ := ih h
      rcases processRecord_ok hstep with ⟨hq, htm1⟩ |
        ⟨hq, sd, tR, hraw, hlook1, hother1, hnd1, hfields1, hkeys1⟩
      · subst htm1
        refine ⟨ihNodup, ?_, ?_, ?_⟩
        · intro s2
          rw [ihPres s2, qualIn_cons]
          constructor
          · rintro (hh | hh)
            · exact Or.inl hh
            · exact Or.inr (Or.inr hh)
          · rintro (hh | ⟨htag, hq2⟩ | hh)
            · exact Or.inl hh
            · rw [hq2] at hq; exact absurd hq (by simp)
            · exact Or.inr hh
        · intro s2 t0 h0
          obtain ⟨t, h1, f1, f2, f3, f4, hn1, hn2, hn3⟩ := ihStable s2 t0 h0
          refine ⟨t, h1, f1, f2, f3, f4, hn1, ?_, ?_⟩
          · intro sd2 hsd2
            rcases hn2 sd2 hsd2 with hh | hh
            · exact Or.inl hh
            · exact Or.inr (qualWith_cons.mpr (Or.inr hh))
          · intro hnone
            obtain ⟨ha, hb⟩ := hn3 hnone
            refine ⟨ha, ?_⟩
            rw [qualIn_cons]
            rintro (⟨htag, hq2⟩ | hh)
            · rw [hq2] at hq; exact absurd hq (by simp)
            · exact hb hh
        · intro s2 t h0 h1
          obtain ⟨ha, hb, hc⟩ := ihNew s2 t h0 h1
          refine ⟨ha, ?_, hc⟩
          intro sd2 hsd2
          exact qualWith_cons.mpr (Or.inr (hb sd2 hsd2))
      · refine ⟨?_, ?_, ?_, ?_⟩
        · intro hnd
          apply ihNodup
          rw [hkeys1]
          by_cases hmem : r.tag ∈ tm.map Prod.fst
          · simpa [hmem] using hnd
          · simp only [hmem, if_false]
            exact nodup_append_singleton hnd hmem
        · intro s2
          by_cases hs2 : s2 = r.tag
          · subst hs2
            constructor
            · intro _
              exact Or.inr (qualIn_cons.mpr (Or.inl ⟨rfl, hq⟩))
            · intro _
              obtain ⟨t, h1, _⟩ := ihStable r.tag tR hlook1
              simp [h1]
          · rw [ihPres s2, qualIn_cons]
            rw [hother1 s2 hs2]
            constructor
            · rintro (hh | hh)
              · exact Or.inl hh
              · exact Or.inr (Or.inr hh)
            · rintro (hh | ⟨htag, _⟩ | hh)
              · exact Or.inl hh
              · exact absurd htag.symm hs2
              · exact Or.inr hh
        · intro s2 t0 h0
          by_cases hs2 : s2 = r.tag
          · subst hs2
            have hnd1b : tR.nation_data = aset t0.nation_data nation sd := by
              rw [h0] at hnd1
              exact hnd1
            obtain ⟨ff1, ff2, ff3, ff4⟩ := hfields1 t0 h0
            obtain ⟨t, h1, g1, g2, g3, g4, gn1, gn2, gn3⟩ :=
              ihStable r.tag tR hlook1
            refine ⟨t, h1, g1.trans ff1, g2.trans ff2, g3.trans ff3,
              g4.trans ff4, ?_, ?_, ?_⟩
            · intro nat2 hnat2
              rw [gn1 nat2 hnat2, hnd1b]
              exact alookup_aset_ne t0.nation_data nation nat2 sd hnat2
            · intro sd2 hsd2
              rcases gn2 sd2 hsd2 with hh | hh
              · rw [hnd1b, alookup_aset_self t0.nation_data nation sd] at hh
                injection hh with hh
                subst hh
                exact Or.inr (qualWith_cons.mpr (Or.inl ⟨rfl, hq, hraw⟩))
              · exact Or.inr (qualWith_cons.mpr (Or.inr hh))
            · intro hnone
              obtain ⟨ha, _⟩ := gn3 hnone
              rw [hnd1b, alookup_aset_self t0.nation_data nation sd] at ha
              exact absurd ha (by simp)
          · obtain ⟨t, h1, g1, g2, g3, g4, gn1, gn2, gn3⟩ :=
              ihStable s2 t0 ((hother1 s2 hs2).trans h0)
            refine ⟨t, h1, g1, g2, g3, g4, gn1, ?_, ?_⟩
            · intro sd2 hsd2
              rcases gn2 sd2 hsd2 with hh | hh
              · exact Or.inl hh
              · exact Or.inr (qualWith_cons.mpr (Or.inr hh))
            · intro hnone
              obtain ⟨ha, hb⟩ := gn3 hnone
              refine ⟨ha, ?_⟩
              rw [qualIn_cons]
              rintro (⟨htag, _⟩ | hh)
              · exact absurd htag.symm hs2
              · exact hb hh
        · intro s2 t h0 h1
          by_cases hs2 : s2 = r.tag
          · subst hs2
            have hnd1b : tR.nation_data = aset [] nation sd := by
              rw [h0] at hnd1
              exact hnd1
            obtain ⟨t3, h3, g1, g2, g3, g4, gn1, gn2, gn3⟩ :=
              ihStable r.tag tR hlook1
            rw [h1] at h3
            injection h3 with h3
            subst h3
            refine ⟨?_, ?_, ?_⟩
            · intro nat2 hnat2
              rw [gn1 nat2 hnat2, hnd1b]
              rw [alookup_aset_ne [] nation nat2 sd hnat2]
              rfl
            · intro sd2 hsd2
              rcases gn2 sd2 hsd2 with hh | hh
              · rw [hnd1b, alookup_aset_self [] nation sd] at hh
                injection hh with hh
                subst hh
                exact qualWith_cons.mpr (Or.inl ⟨rfl, hq, hraw⟩)
              · exact qualWith_cons.mpr (Or.inr hh)
            · cases hcase : alookup t.nation_data nation with
              | none =>
                obtain ⟨ha, _⟩ := gn3 hcase
                rw [hnd1b, alookup_aset_self [] nation sd] at ha
                exact absurd ha (by simp)
              | some sd2 => rfl
          · obtain ⟨ha, hb, hc⟩ := ihNew s2 t ((hother1 s2 hs2).trans h0) h1
            refine ⟨ha, ?_, hc⟩
            intro sd2 hsd2
            exact qualWith_cons.mpr (Or.inr (hb sd2 hsd2))

theorem processNation_ok {choose : List String → Option String} {mn : String}
    {mo : List (String × List (String × String))} {voice_tags : List String}
    {st st2 : AppState} {nf : String × Xml}
    (h : processNation choose mn mo voice_tags st nf = .ok st2) :
    st2.nation_xmls = aset st.nation_xmls nf.1 nf.2 ∧
    ∃ pg, nf.2.find "premiumGroups" = some pg ∧
      foldExcept (processRecord choose mn mo voice_tags nf.1) st.tankmen
        pg.children = .ok st2.tankmen := by
  cases hpg : nf.2.find "premiumGroups" with
  | none => simp [processNation, hpg] at h
  | some pg =>
    simp only [processNation, hpg] at h
    cases hfold : foldExcept (processRecord choose mn mo voice_tags nf.1)
        st.tankmen pg.children with
    | error e => rw [hfold] at h; exact absurd h (by simp)
    | ok tmNew =>
      rw [hfold] at h
      simp only [Except.ok.injEq] at h
      subst h
      exact ⟨rfl, pg, rfl, hfold⟩

theorem loadFrom_ok {choose : List String → Option String} {mn : String}
    {mo : List (String × List (String × String))} {voice_tags : List String} :
    ∀ {files : List (String × Xml)} {st st2 : AppState},
    foldExcept (processNation choose mn mo voice_tags) st files = .ok st2 →
    ((st.tankmen.map Prod.fst).Nodup → (st2.tankmen.map Prod.fst).Nodup) ∧
    (∀ s2, (alookup st2.tankmen s2).isSome = true ↔
      ((alookup st.tankmen s2).isSome = true ∨
        ∃ nf, nf ∈ files ∧ DocHasQualifying choose voice_tags s2 nf.2)) ∧
    (∀ s2 t0, alookup st.tankmen s2 = some t0 →
      ∃ t, alookup st2.tankmen s2 = some t ∧
      t.first_name = t0.first_name ∧ t.last_name = t0.last_name ∧
      t.icon = t0.icon ∧ t.voice_tag = t0.voice_tag ∧
      (∀ nat2 sd, alookup t.nation_data nat2 = some sd →
        alookup t0.nation_data nat2 = some sd ∨
          ∃ doc, (nat2, doc) ∈ files ∧ DocQualWith choose voice_tags s2 doc sd) ∧
      (∀ nat2, alookup t.nation_data nat2 = none →
        alookup t0.nation_data nat2 = none ∧
          ¬ ∃ doc, (nat2, doc) ∈ files ∧ DocHasQualifying choose voice_tags s2 doc)) ∧
    (∀ s2 t, alookup st.tankmen s2 = none → alookup st2.tankmen s2 = some t →
      (∀ nat2 sd, alookup t.nation_data nat2 = some sd →
        ∃ doc, (nat2, doc) ∈ files ∧ DocQualWith choose voice_tags s2 doc sd) ∧
      (∀ nat2, alookup t.nation_data nat2 = none →
        ¬ ∃ doc, (nat2, doc) ∈ files ∧ DocHasQualifying choose voice_tags s2 doc)) := by
  intro files
  induction files with
  | nil =>
    intro st st2 h
    rw [foldExcept] at h
    injection h with h
    subst h
    refine ⟨fun hh => hh, ?_, ?_, ?_⟩
    · intro s2
      constructor
      · intro hh; exact Or.inl hh
      · rintro (hh | ⟨nf, hmem, _⟩)
        · exact hh
        · simp at hmem
    · intro s2 t0 h0
      refine ⟨t0, h0, rfl, rfl, rfl, rfl, ?_, ?_⟩
      · intro nat2 sd hsd; exact Or.inl hsd
      · intro nat2 hnone
        refine ⟨hnone, ?_⟩
        rintro ⟨doc, hmem, _⟩
        simp at hmem
    · intro s2 t h0 h1
      rw [h0] at h1
      exact absurd h1 (by simp)
  | cons nf fs ih =>
    intro st st2 h
    obtain ⟨n1, d1⟩ := nf
    rw [foldExcept] at h
    cases hstep : processNation choose mn mo voice_tags st (n1, d1) with
    | error e => rw [hstep] at h; exact absurd h (by simp)
    | ok st1 =>
      rw [hstep] at h
      obtain ⟨ihNodup, ihPres, ihStable, ihNew⟩ := ih h
      obtain ⟨hxml1, pg, hpg, hfold⟩ := processNation_ok hstep
      obtain ⟨rNodup, rPres, rStable, rNew⟩ := foldRecords_ok hfold
      have hDocIff : ∀ s2, DocHasQualifying choose voice_tags s2 d1 ↔
          QualIn choose voice_tags pg.children s2 := by
        intro s2
        constructor
        · rintro ⟨pg2, hpg2, hq⟩
          rw [hpg] at hpg2
          injection hpg2 with hpg2
          subst hpg2
          exact hq
        · intro hq
          exact ⟨pg, hpg, hq⟩
      refine ⟨fun hh => ihNodup (rNodup hh), ?_, ?_, ?_⟩
      · intro s2
        rw [ihPres s2, rPres s2]
        constructor
        · rintro ((hh | hh) | hh)
          · exact Or.inl hh
          · exact Or.inr ⟨(n1, d1), List.mem_cons_self _ _, (hDocIff s2).mpr hh⟩
          · obtain ⟨nf2, hmem, hdq⟩ := hh
            exact Or.inr ⟨nf2, List.mem_cons_of_mem _ hmem, hdq⟩
        · rintro (hh | ⟨nf2, hmem, hdq⟩)
          · exact Or.inl (Or.inl hh)
          · rcases List.mem_cons.mp hmem with hh2 | hh2
            · subst hh2
              exact Or.inl (Or.inr ((hDocIff s2).mp hdq))
            · exact Or.inr ⟨nf2, hh2, hdq⟩
      · intro s2 t0 h0
        obtain ⟨t1, h1, r1, r2, r3, r4, rn1, rn2, rn3⟩ := rStable s2 t0 h0
        obtain ⟨t, h2, g1, g2, g3, g4, gn2, gn3⟩ := ihStable s2 t1 h1
        refine ⟨t, h2, g1.trans r1, g2.trans r2, g3.trans r3, g4.trans r4,
          ?_, ?_⟩
        · intro nat2 sd hsd
          rcases gn2 nat2 sd hsd with hh | hh
          · by_cases hnat : nat2 = n1
            · subst hnat
              rcases rn2 sd hh with hh2 | hh2
              · exact Or.inl hh2
              · exact Or.inr ⟨d1, List.mem_cons_self _ _, pg, hpg, hh2⟩
            · rw [rn1 nat2 hnat] at hh
              exact Or.inl hh
          · obtain ⟨doc, hmem, hdq⟩ := hh
            exact Or.inr ⟨doc, List.mem_cons_of_mem _ hmem, hdq⟩
        · intro nat2 hnone
          obtain ⟨ha, hb⟩ := gn3 nat2 hnone
          by_cases hnat : nat2 = n1
          · subst hnat
            obtain ⟨ha2, hb2⟩ := rn3 ha
            refine ⟨ha2, ?_⟩
            rintro ⟨doc, hmem, hdq⟩
            rcases List.mem_cons.mp hmem with hh2 | hh2
            · have hdd : doc = d1 := congrArg Prod.snd hh2
              subst hdd
              exact hb2 ((hDocIff s2).mp hdq)
            · exact hb ⟨doc, hh2, hdq⟩
          · rw [rn1 nat2 hnat] at ha
            refine ⟨ha, ?_⟩
            rintro ⟨doc, hmem, hdq⟩
            rcases List.mem_cons.mp hmem with hh2 | hh2
            · exact hnat (congrArg Prod.fst hh2)
            · exact hb ⟨doc, hh2, hdq⟩
      · intro s2 t h0 h1
        cases hmid : alookup st1.tankmen s2 with
        | none =>
          obtain ⟨ga, gb⟩ := ihNew s2 t hmid h1
          refine ⟨?_, ?_⟩
          · intro nat2 sd hsd
            obtain ⟨doc, hmem, hdq⟩ := ga nat2 sd hsd
            exact ⟨doc, List.mem_cons_of_mem _ hmem, hdq⟩
          · intro nat2 hnone
            rintro ⟨doc, hmem, hdq⟩
            rcases List.mem_cons.mp hmem with hh2 | hh2
            · have hdd : doc = d1 := congrArg Prod.snd hh2
              have hnn : nat2 = n1 := congrArg Prod.fst hh2
              subst hdd
              subst hnn
              have : (alookup st1.tankmen s2).isSome = true := by
                rw [rPres s2]
                exact Or.inr ((hDocIff s2).mp hdq)
              rw [hmid] at this
              simp at this
            · exact gb nat2 hnone ⟨doc, hh2, hdq⟩
        | some t1 =>
          obtain ⟨ra, rb, rc⟩ := rNew s2 t1 h0 hmid
          obtain ⟨t2, h2, g1, g2, g3, g4, gn2, gn3⟩ := ihStable s2 t1 hmid
          rw [h1] at h2
          injection h2 with h2
          subst h2
          refine ⟨?_, ?_⟩
          · intro nat2 sd hsd
            rcases gn2 nat2 sd hsd with hh | hh
            · by_cases hnat : nat2 = n1
              · subst hnat
                exact ⟨d1, List.mem_cons_self _ _, pg, hpg, rb sd hh⟩
              · rw [ra nat2 hnat] at hh
                exact absurd hh (by simp)
            · obtain ⟨doc, hmem, hdq⟩ := hh
              exact ⟨doc, List.mem_cons_of_mem _ hmem, hdq⟩
          · intro nat2 hnone
            obtain ⟨ha, hb⟩ := gn3 nat2 hnone
            rintro ⟨doc, hmem, hdq⟩
            rcases List.mem_cons.mp hmem with hh2 | hh2
            · have hdd : doc = d1 := congrArg Prod.snd hh2
              have hnn : nat2 = n1 := congrArg Prod.fst hh2
              subst hdd
              subst hnn
              rw [ha] at rc
              simp at rc
            · exact hb ⟨doc, hh2, hdq⟩

/-- Python `next(iter(s), None)` realized as taking the head of the
iteration order; admissible in the sense of `AdmissibleChoice`. -/
theorem admissible_head : AdmissibleChoice List.head? := by
  constructor
  · intro l x hx
    cases l with
    | nil => simp [List.head?] at hx
    | cons a as =>
      simp only [List.head?, Option.some.injEq] at hx
      subst hx
      exact List.mem_cons_self a as
  · intro l hl
    cases l with
    | nil => rfl
    | cons a as => simp [List.head?] at hl

theorem qualifies_eq_set {choose : List String → Option String}
    {voice_tags : List String} {rec : Xml} (hadm : AdmissibleChoice choose)
    (hne : ¬ "" ∈ voice_tags) :
    qualifies choose voice_tags rec = qualifiesSet voice_tags rec := by
  cases htt : tagsTextOrDefault rec with
  | none => simp only [qualifies, qualifiesSet, htt]
  | some t =>
    cases hch : choose ((pySplit (pyStrip t)).filter
        (fun x => voice_tags.contains x)) with
    | none =>
      have hnil := hadm.2 _ hch
      rw [hnil] at hch
      simp only [qualifies, qualifiesSet, htt, hnil, hch, List.isEmpty_nil,
        Bool.not_true]
    | some vt =>
      have hmem := hadm.1 _ _ hch
      have hvt : ¬ vt = "" := by
        intro he
        subst he
        have hcont := List.of_mem_filter hmem
        exact hne (by simpa using hcont)
      have hflt : ((pySplit (pyStrip t)).filter
          (fun x => voice_tags.contains x)).isEmpty = false := by
        cases hfe : ((pySplit (pyStrip t)).filter
            (fun x => voice_tags.contains x)) with
        | nil => rw [hfe] at hmem; simp at hmem
        | cons a as => rfl
      simp only [qualifies, qualifiesSet, htt, hch, hflt]
      rw [bne_iff_ne.mpr hvt]
      rfl

theorem docHasQualifying_iff_set {choose : List String → Option String}
    {voice_tags : List String} {slug : String} {doc : Xml}
    (hadm : AdmissibleChoice choose) (hne : ¬ "" ∈ voice_tags) :
    DocHasQualifying choose voice_tags slug doc ↔
      DocHasQualifyingSet voice_tags slug doc := by
  constructor
  · rintro ⟨pg, hpg, rec, hmem, htag, hq⟩
    exact ⟨pg, hpg, rec, hmem, htag,
      ((qualifies_eq_set hadm hne).symm).trans hq⟩
  · rintro ⟨pg, hpg, rec, hmem, htag, hq⟩
    exact ⟨pg, hpg, rec, hmem, htag, (qualifies_eq_set hadm hne).trans hq⟩

/-- C2 as amended: after `load_tankmen` completes, each slug maps to
exactly one tankman (the directory keys are duplicate-free); a slug is
present iff in at least one processed nation file some record with that
slug avoids the `race` filter and the element the set-iteration order
picks from the intersection of its tag set with the voice-tag set is
truthy (`if not voice_tag: continue` skips a chosen empty string); the
resolved display fields survive unchanged from any prefix of the
processing (so the first qualifying nation fixes them); `nation_data`
holds a raw `SubstitutionData` extracted from a qualifying record
exactly for the nations in which the slug qualified; and when the empty
string is not itself a voice tag the presence condition coincides with
plain nonempty set intersection. -/
theorem c2_registry {choose : List String → Option String} {mn : String}
    {mo : List (String × List (String × String))} {voice_tags : List String}
    {files : List (String × Xml)} {st : AppState}
    (hadm : AdmissibleChoice choose)
    (h : load_tankmen choose mn mo voice_tags files = .ok st) :
    (st.tankmen.map Prod.fst).Nodup ∧
    (∀ slug, (alookup st.tankmen slug).isSome = true ↔
      ∃ nf, nf ∈ files ∧ DocHasQualifying choose voice_tags slug nf.2) ∧
    (∀ fs1 fs2 st1 slug t1, files = fs1 ++ fs2 →
      load_tankmen choose mn mo voice_tags fs1 = .ok st1 →
      alookup st1.tankmen slug = some t1 →
      ∃ t, alookup st.tankmen slug = some t ∧ t.first_name = t1.first_name ∧
        t.last_name = t1.last_name ∧ t.icon = t1.icon ∧
        t.voice_tag = t1.voice_tag) ∧
    (∀ slug t, alookup st.tankmen slug = some t → ∀ nation,
      (∀ sd, alookup t.nation_data nation = some sd →
        ∃ doc, (nation, doc) ∈ files ∧ DocQualWith choose voice_tags slug doc sd) ∧
      (alookup t.nation_data nation = none →
        ¬ ∃ doc, (nation, doc) ∈ files ∧
          DocHasQualifying choose voice_tags slug doc)) ∧
    (¬ "" ∈ voice_tags → ∀ slug,
      ((alookup st.tankmen slug).isSome = true ↔
        ∃ nf, nf ∈ files ∧ DocHasQualifyingSet voice_tags slug nf.2)) := by
  have h0 : foldExcept (processNation choose mn mo voice_tags)
      (AppState.mk [] []) files = .ok st := h
  obtain ⟨lNodup, lPres, lStable, lNew⟩ := loadFrom_ok h0
  refine ⟨lNodup (by simp), ?_, ?_, ?_, ?_⟩
  · intro slug
    rw [lPres slug]
    constructor
    · rintro (hh | hh)
      · simp [alookup] at hh
      · exact hh
    · intro hh
      exact Or.inr hh
  · intro fs1 fs2 st1 slug t1 hsplit h1 hl1
    have h1b : foldExcept (processNation choose mn mo voice_tags)
        (AppState.mk [] []) fs1 = .ok st1 := h1
    rw [hsplit, foldExcept_append, h1b] at h0
    obtain ⟨_, _, sStable, _⟩ := loadFrom_ok h0
    obtain ⟨t, ht, f1, f2, f3, f4, _, _⟩ := sStable slug t1 hl1
    exact ⟨t, ht, f1, f2, f3, f4⟩
  · intro slug t hlook nation
    have hinit : alookup ((AppState.mk [] [] : AppState).tankmen) slug = none := rfl
    obtain ⟨ga, gb⟩ := lNew slug t hinit hlook
    exact ⟨fun sd hsd => ga nation sd hsd, fun hnone => gb nation hnone⟩
  · intro hne slug
    rw [lPres slug]
    constructor
    · rintro (hh | ⟨nf, hmem, hdq⟩)
      · simp [alookup] at hh
      · exact ⟨nf, hmem, (docHasQualifying_iff_set hadm hne).mp hdq⟩
    · rintro ⟨nf, hmem, hdq⟩
      exact Or.inr ⟨nf, hmem, (docHasQualifying_iff_set hadm hne).mpr hdq⟩

/-- Witness for C2 at a concrete load. -/
theorem c2_witness :
    AdmissibleChoice List.head? ∧ ¬ "" ∈ ["v1", "v2"] ∧
    load_tankmen List.head? "__main__" [] ["v1", "v2"] [("usa", docUsa)] =
      .ok c2st ∧
    (c2st.tankmen.map Prod.fst).Nodup ∧
    ((alookup c2st.tankmen "slugA").isSome = true ↔
      ∃ nf, nf ∈ [("usa", docUsa)] ∧
        DocHasQualifying List.head? ["v1", "v2"] "slugA" nf.2) ∧
    ((alookup c2st.tankmen "slugA").isSome = true ↔
      ∃ nf, nf ∈ [("usa", docUsa)] ∧
        DocHasQualifyingSet ["v1", "v2"] "slugA" nf.2) :=
  ⟨admissible_head, by decide, rfl,
    (@c2_registry List.head? "__main__" [] ["v1", "v2"] [("usa", docUsa)] c2st
      admissible_head rfl).1,
    (@c2_registry List.head? "__main__" [] ["v1", "v2"] [("usa", docUsa)] c2st
      admissible_head rfl).2.1 "slugA",
    (@c2_registry List.head? "__main__" [] ["v1", "v2"] [("usa", docUsa)] c2st
      admissible_head rfl).2.2.2.2 (by decide) "slugA"⟩

/-- Counterexample to C2 as stated: with the empty string among the
voice tags, a record whose whitespace-split tag set meets the voice-tag
set is nonetheless skipped, because the chosen intersection element is
the empty string and `if not voice_tag: continue` tests falsiness, not
`None`-ness.  The loaded directory stays empty although the record
qualifies in the set-intersection sense and its slug passes the `race`
filter. -/
theorem c2_counterexample :
    qualifiesSet [""] c2xrec = true ∧
    qualifies List.head? [""] c2xrec = false ∧
    strContains c2xrec.tag "race" = false ∧
    load_tankmen List.head? "__main__" [] [""] [("usa", c2xdoc)] =
      .ok (AppState.mk [("usa", c2xdoc)] []) :=
  ⟨rfl, rfl, rfl, rfl⟩

/-- C7 (refuting evaluation): the code does crash on partial trees.  A
record whose `firstNames` container is empty makes `load_tankmen` raise
`StopIteration` (`next(iter(...))` on an empty container, `app.py` line
112), and a mapped record without a `tags` child makes `substitute` raise
`AttributeError` (`None.text = ...`, `app.py` line 143), contradicting
the claim that missing or empty containers are treated as empty data. -/
theorem c7_partial_tree_crash :
    exceptError (load_tankmen List.head? "__main__" [] ["v"] [("usa", c7doc)]) =
      some "StopIteration" ∧
    exceptError (substitute c7subState "usa" [("h", "h")]) =
      some "AttributeError" :=
  ⟨rfl, rfl⟩

/-- Counterexample to C8 as stated: a resolved first name equal to
`?empty?` is stored literally in the constructed tankman, while the
resolved last name is normalized to the empty string — the sentinel
normalization is applied to the last name only. -/
theorem c8_counterexample :
    (loadedTankman List.head? "__main__" c8mo ["v"] [("usa", c8doc)] "hero").map
      (fun t => (t.first_name, t.last_name)) =
      some (some "?empty?", some "") := by
  rfl

/-- C8 as amended: during registration of a new slug, the resolved last
name equal to the `?empty?` sentinel is normalized to the empty string,
while the resolved first name is stored exactly as returned by the
catalog cache, sentinel or not. -/
theorem c8_last_name_only {mn : String}
    {mo : List (String × List (String × String))}
    {slug voice_tag : String} {fn sn ic : Option String}
    {tm : List (String × Tankman)} {snS fnS icS : String}
    {lnRes fnRes : Option String}
    (hnew : alookup tm slug = none)
    (hsn : sn = some snS) (hfn : fn = some fnS) (hic : ic = some icS)
    (hln : get_name mn mo (pyStrip snS) = .ok lnRes)
    (hfr : get_name mn mo (pyStrip fnS) = .ok fnRes) :
    ∃ tm1, registerTankman mn mo slug voice_tag fn sn ic tm = .ok tm1 ∧
      ∃ t, alookup tm1 slug = some t ∧
        t.last_name = (if lnRes = some "?empty?" then some "" else lnRes) ∧
        t.first_name = fnRes := by
  subst hsn
  subst hfn
  subst hic
  refine ⟨aset tm slug
    { first_name := fnRes,
      last_name := if lnRes = some "?empty?" then some "" else lnRes,
      icon := pyStrip icS, slug := slug, voice_tag := voice_tag,
      nation_data := [] }, ?_, ?_⟩
  · rw [registerTankman.eq_def, hnew]
    simp only [Option.isSome_none, Bool.false_eq_true, if_false, hln, hfr]
  · refine ⟨_, alookup_aset_self tm slug _, rfl, rfl⟩

/-- Witness for the amended C8 at the concrete sentinel catalog. -/
theorem c8_witness :
    get_name "__main__" c8mo (pyStrip "#nav:l") = .ok (some "?empty?") ∧
    get_name "__main__" c8mo (pyStrip "#nav:f") = .ok (some "?empty?") ∧
    ∃ tm1, registerTankman "__main__" c8mo "hero" "v" (some "#nav:f") (some "#nav:l")
        (some "ic") [] = .ok tm1 ∧
      ∃ t, alookup tm1 "hero" = some t ∧
        t.last_name = (if (some "?empty?" : Option String) = some "?empty?"
          then some "" else some "?empty?") ∧
        t.first_name = some "?empty?" :=
  ⟨rfl, rfl,
    @c8_last_name_only "__main__" c8mo "hero" "v" (some "#nav:f") (some "#nav:l")
      (some "ic") [] "#nav:l" "#nav:f" "ic" (some "?empty?")
      (some "?empty?") rfl rfl rfl rfl rfl rfl⟩

/-- Python `next(iter(s), None)` realized as taking the last element of
the iteration order; admissible in the sense of `AdmissibleChoice`. -/
theorem admissible_last : AdmissibleChoice List.getLast? := by
  constructor
  · intro l
    induction l with
    | nil => intro x hx; simp at hx
    | cons a as ih =>
      intro x hx
      cases as with
      | nil =>
        have hred : (a :: ([] : List String)).getLast? = some a := rfl
        rw [hred] at hx
        injection hx with hx
        subst hx
        exact List.mem_cons_self a []
      | cons b bs =>
        rw [List.getLast?_cons_cons] at hx
        exact List.mem_cons_of_mem a (ih x hx)
  · intro l hl
    cases l with
    | nil => rfl
    | cons a as =>
      rw [List.getLast?_eq_getLast_of_ne_nil (List.cons_ne_nil a as)] at hl
      exact absurd hl (by simp)

/-- C9 (refuting evaluation): the voice tag assigned to a record whose
tag set meets the voice-tag set in more than one element depends on the
set iteration order.  Two admissible iteration orders (head-first and
last-first, both legitimate realizations of Python's hash-seed-dependent
set order) assign different voice tags to the same record, so the
assignment is not deterministic across runs as the claim requires. -/
theorem c9_order_dependent :
    AdmissibleChoice List.head? ∧ AdmissibleChoice List.getLast? ∧
    (loadedTankman List.head? "__main__" [] ["va", "vb"] [("usa", c9doc)] "hero").map
      (fun t => t.voice_tag) = some "va" ∧
    (loadedTankman List.getLast? "__main__" [] ["va", "vb"] [("usa", c9doc)] "hero").map
      (fun t => t.voice_tag) = some "vb" ∧
    ¬ ("va" : String) = "vb" :=
  ⟨admissible_head, admissible_last, rfl, rfl, by decide⟩

theorem takeWhile_of_all {p : Char → Bool} :
    ∀ {l : List Char}, (∀ x ∈ l, p x = true) → l.takeWhile p = l := by
  intro l
  induction l with
  | nil => intro _; rfl
  | cons a as ih =>
    intro h
    have ha := h a (List.mem_cons_self a as)
    simp only [List.takeWhile_cons, ha, if_true]
    rw [ih (fun x hx => h x (List.mem_cons_of_mem a hx))]

theorem takeWhile_all_append {p : Char → Bool} :
    ∀ {l1 : List Char} {c : Char} {l2 : List Char},
    (∀ x ∈ l1, p x = true) → p c = false → (l1 ++ c :: l2).takeWhile p = l1 := by
  intro l1
  induction l1 with
  | nil =>
    intro c l2 _ hc
    simp [List.takeWhile_cons, hc]
  | cons a as ih =>
    intro c l2 h hc
    have ha := h a (List.mem_cons_self a as)
    simp only [List.cons_append, List.takeWhile_cons, ha, if_true]
    rw [ih (fun x hx => h x (List.mem_cons_of_mem a hx)) hc]

theorem dropWhile_all_append {p : Char → Bool} :
    ∀ {l1 : List Char} {c : Char} {l2 : List Char},
    (∀ x ∈ l1, p x = true) → p c = false →
    (l1 ++ c :: l2).dropWhile p = c :: l2 := by
  intro l1
  induction l1 with
  | nil =>
    intro c l2 _ hc
    simp [List.dropWhile_cons, hc]
  | cons a as ih =>
    intro c l2 h hc
    have ha := h a (List.mem_cons_self a as)
    simp only [List.cons_append, List.dropWhile_cons, ha, if_true]
    exact ih (fun x hx => h x (List.mem_cons_of_mem a hx)) hc

theorem reMatchAt_not_hash {c : Char} {cs : List Char} (h : ¬ c = '#') :
    reMatchAt (c :: cs) = none := by
  simp [reMatchAt, h]

theorem reSearch_none_of_no_hash :
    ∀ {l : List Char}, (∀ c ∈ l, ¬ c = '#') → reSearch l = none := by
  intro l
  induction l with
  | nil => intro _; rfl
  | cons a as ih =>
    intro h
    rw [reSearch, reMatchAt_not_hash (h a (List.mem_cons_self a as))]
    exact ih (fun c hc => h c (List.mem_cons_of_mem a hc))

theorem reSearch_skip :
    ∀ {l1 l2 : List Char}, (∀ c ∈ l1, ¬ c = '#') →
    reSearch (l1 ++ l2) = reSearch l2 := by
  intro l1
  induction l1 with
  | nil => intro l2 _; rfl
  | cons a as ih =>
    intro l2 h
    rw [List.cons_append, reSearch,
      reMatchAt_not_hash (h a (List.mem_cons_self a as))]
    exact ih (fun c hc => h c (List.mem_cons_of_mem a hc))

theorem reMatchAt_concat {cat key : String}
    (hcat1 : cat.data ≠ []) (hcat2 : ∀ c ∈ cat.data, isWordChar c = true)
    (hkey1 : key.data ≠ []) (hkey2 : ∀ c ∈ key.data, ¬ c = '\n') :
    reMatchAt ('#' :: (cat.data ++ ':' :: key.data)) = some (cat, key) := by
  have hcolon : isWordChar ':' = false := by decide
  have htake : (cat.data ++ ':' :: key.data).takeWhile isWordChar = cat.data :=
    takeWhile_all_append hcat2 hcolon
  have hdrop : (cat.data ++ ':' :: key.data).dropWhile isWordChar =
      ':' :: key.data :=
    dropWhile_all_append hcat2 hcolon
  have htakekey : key.data.takeWhile (fun c2 => c2 != '\n') = key.data := by
    refine takeWhile_of_all ?_
    intro x hx
    simpa using hkey2 x hx
  rw [reMatchAt]
  simp only [if_pos rfl, htake, hdrop]
  have hrun : cat.data.isEmpty = false := by
    cases hc : cat.data with
    | nil => exact absurd hc hcat1
    | cons a as => rfl
  simp only [hrun, Bool.false_eq_true, if_false, htakekey]
  have hslug : key.data.isEmpty = false := by
    cases hc : key.data with
    | nil => exact absurd hc hkey1
    | cons a as => rfl
  simp only [hslug, Bool.false_eq_true, if_false]
  rfl

theorem reSearch_concat {pre cat key : String}
    (hpre : ∀ c ∈ pre.data, ¬ c = '#')
    (hcat1 : cat.data ≠ []) (hcat2 : ∀ c ∈ cat.data, isWordChar c = true)
    (hkey1 : key.data ≠ []) (hkey2 : ∀ c ∈ key.data, ¬ c = '\n') :
    reSearch ((pre ++ "#" ++ cat ++ ":" ++ key).data) = some (cat, key) := by
  have hdata : (pre ++ "#" ++ cat ++ ":" ++ key).data =
      pre.data ++ '#' :: (cat.data ++ ':' :: key.data) := by
    show pre.data ++ '#' :: [] ++ cat.data ++ ':' :: [] ++ key.data =
      pre.data ++ '#' :: (cat.data ++ ':' :: key.data)
    simp
  rw [hdata, reSearch_skip hpre, reSearch,
    reMatchAt_concat hcat1 hcat2 hkey1 hkey2]

theorem string_ne_empty_of_data {s : String} (h : s.data ≠ []) : ¬ s = "" := by
  intro he
  subst he
  exact h rfl

/-- Counterexample to C3 as stated: the catalog id `cache` is not a
loaded catalog, yet `get_name` raises `AttributeError` instead of
returning null, because `getattr(self, 'cache', None)` finds the real
`cache` dict attribute (never reaching `__getattr__`) and dicts have no
`find` method. -/
theorem c3_counterexample :
    get_name "__main__" [("navajo", [("alpha", "Pavel Morozov")])]
      "#cache:alpha" = .error "AttributeError" := by
  rfl

/-- C3 as amended: `get_name` returns the stored value for the first
`#<catalog_id>:<key>` pattern found anywhere in the input (a hash-free
prefix is ignored and the key extends to the end of the string), returns
null on the empty string or when no `#` occurs at all, and treats an
unknown catalog id as an empty table — except when the catalog id names
a real attribute of the cache object: for the attributes without a
usable `find` (such as `cache`) it raises `AttributeError`, while for
the string-valued `__module__` it returns null when the key is a leading
segment of the module name (`str.find` gives the falsy index 0) and
raises `AttributeError` otherwise (`.msgstr` on the integer index). -/
theorem c3_get_name (mn : String)
    (cache : List (String × List (String × String))) :
    get_name mn cache "" = .ok none ∧
    (∀ s : String, (∀ c ∈ s.data, ¬ c = '#') → get_name mn cache s = .ok none) ∧
    (∀ pre cat key : String, (∀ c ∈ pre.data, ¬ c = '#') →
      cat.data ≠ [] → (∀ c ∈ cat.data, isWordChar c = true) →
      moObjectAttrs.contains cat = false → moStrAttrs.contains cat = false →
      key.data ≠ [] → (∀ c ∈ key.data, ¬ c = '\n') →
      get_name mn cache (pre ++ "#" ++ cat ++ ":" ++ key) =
        .ok (moFind ((alookup cache cat).getD []) key)) ∧
    (∀ pre cat key : String, (∀ c ∈ pre.data, ¬ c = '#') →
      cat.data ≠ [] → (∀ c ∈ cat.data, isWordChar c = true) →
      moObjectAttrs.contains cat = true →
      key.data ≠ [] → (∀ c ∈ key.data, ¬ c = '\n') →
      get_name mn cache (pre ++ "#" ++ cat ++ ":" ++ key) =
        .error "AttributeError") ∧
    (∀ pre cat key : String, (∀ c ∈ pre.data, ¬ c = '#') →
      cat.data ≠ [] → (∀ c ∈ cat.data, isWordChar c = true) →
      moObjectAttrs.contains cat = false → moStrAttrs.contains cat = true →
      key.data ≠ [] → (∀ c ∈ key.data, ¬ c = '\n') →
      get_name mn cache (pre ++ "#" ++ cat ++ ":" ++ key) =
        (if charsBeginWith key.data mn.data then .ok none
         else .error "AttributeError")) := by
  refine ⟨rfl, ?_, ?_, ?_, ?_⟩
  · intro s hs
    by_cases he : s = ""
    · subst he; rfl
    · simp only [get_name, he, if_false]
      rw [reSearch_none_of_no_hash hs]
  · intro pre cat key hpre hcat1 hcat2 hattr hstr hkey1 hkey2
    have hne : ¬ (pre ++ "#" ++ cat ++ ":" ++ key) = "" := by
      apply string_ne_empty_of_data
      show pre.data ++ '#' :: [] ++ cat.data ++ ':' :: [] ++ key.data ≠ []
      simp
    simp only [get_name, hne, if_false,
      reSearch_concat hpre hcat1 hcat2 hkey1 hkey2, hattr, hstr,
      Bool.false_eq_true, if_false]
  · intro pre cat key hpre hcat1 hcat2 hattr hkey1 hkey2
    have hne : ¬ (pre ++ "#" ++ cat ++ ":" ++ key) = "" := by
      apply string_ne_empty_of_data
      show pre.data ++ '#' :: [] ++ cat.data ++ ':' :: [] ++ key.data ≠ []
      simp
    simp only [get_name, hne, if_false,
      reSearch_concat hpre hcat1 hcat2 hkey1 hkey2, hattr, if_true]
  · intro pre cat key hpre hcat1 hcat2 hattr hstr hkey1 hkey2
    have hne : ¬ (pre ++ "#" ++ cat ++ ":" ++ key) = "" := by
      apply string_ne_empty_of_data
      show pre.data ++ '#' :: [] ++ cat.data ++ ':' :: [] ++ key.data ≠ []
      simp
    simp only [get_name, hne, if_false,
      reSearch_concat hpre hcat1 hcat2 hkey1 hkey2, hattr, hstr,
      Bool.false_eq_true, if_false, if_true]

/-- Witness for the amended C3: the catalog `navajo: {alpha: Pavel
Morozov}` resolves `#navajo:alpha` (with an ignored prefix), returns
null for plain text, raises on the attribute-shadowed id `cache`, and on
the string-valued `__module__` (module name `__main__`) returns null for
the key `_` — a leading segment of the module name — while raising for
the key `z`. -/
theorem c3_witness :
    get_name "__main__" [("navajo", [("alpha", "Pavel Morozov")])]
      ("xx" ++ "#" ++ "navajo" ++ ":" ++ "alpha") =
      .ok (moFind ((alookup [("navajo", [("alpha", "Pavel Morozov")])]
        "navajo").getD []) "alpha") ∧
    get_name "__main__" [("navajo", [("alpha", "Pavel Morozov")])] "plaintext" =
      .ok none ∧
    get_name "__main__" [("navajo", [("alpha", "Pavel Morozov")])]
      ("" ++ "#" ++ "cache" ++ ":" ++ "alpha") = .error "AttributeError" ∧
    get_name "__main__" [("navajo", [("alpha", "Pavel Morozov")])]
      ("" ++ "#" ++ "__module__" ++ ":" ++ "_") =
      (if charsBeginWith "_".data "__main__".data then .ok none
       else .error "AttributeError") ∧
    get_name "__main__" [("navajo", [("alpha", "Pavel Morozov")])]
      ("" ++ "#" ++ "__module__" ++ ":" ++ "z") =
      (if charsBeginWith "z".data "__main__".data then .ok none
       else .error "AttributeError") :=
  ⟨(c3_get_name "__main__" [("navajo", [("alpha", "Pavel Morozov")])]).2.2.1
      "xx" "navajo" "alpha" (by decide) (by decide) (by decide) (by decide)
      (by decide) (by decide) (by decide),
    (c3_get_name "__main__" [("navajo", [("alpha", "Pavel Morozov")])]).2.1
      "plaintext" (by decide),
    (c3_get_name "__main__" [("navajo", [("alpha", "Pavel Morozov")])]).2.2.2.1
      "" "cache" "alpha" (by decide) (by decide) (by decide) (by decide)
      (by decide) (by decide),
    (c3_get_name "__main__" [("navajo", [("alpha", "Pavel Morozov")])]).2.2.2.2
      "" "__module__" "_" (by decide) (by decide) (by decide) (by decide)
      (by decide) (by decide) (by decide),
    (c3_get_name "__main__" [("navajo", [("alpha", "Pavel Morozov")])]).2.2.2.2
      "" "__module__" "z" (by decide) (by decide) (by decide) (by decide)
      (by decide) (by decide) (by decide)⟩

theorem nsEntry_none_nil : nsEntry none [] = none := rfl

theorem nsEntry_none_cons (x : String × String) (l : List (String × String)) :
    nsEntry none (x :: l) = some (x :: l) := rfl

theorem nsEntry_some (inner l : List (String × String)) :
    nsEntry (some inner) l = some (inner ++ l) := rfl

theorem retainedEntries_eq_filter (tankmen : List (String × Tankman))
    (form : List (String × String)) :
    retainedEntries tankmen form = form.filter (retKeep tankmen) := rfl

theorem nationFold_lookup {k tgt : String} :
    ∀ (nd : List (String × SubstitutionData))
      (ns : List (String × List (String × String))) (nation : String),
    alookup (nd.foldl
      (fun ns2 p => aset ns2 p.1 (aset ((alookup ns2 p.1).getD []) k tgt)) ns)
      nation =
      (if nation ∈ nd.map Prod.fst
       then some (aset ((alookup ns nation).getD []) k tgt)
       else alookup ns nation) := by
  intro nd
  induction nd with
  | nil =>
    intro ns nation
    simp [List.foldl]
  | cons p rest ih =>
    intro ns nation
    rw [List.foldl_cons, ih]
    by_cases hn : nation = p.1
    · subst hn
      have h1 : alookup (aset ns p.1 (aset ((alookup ns p.1).getD []) k tgt))
          p.1 = some (aset ((alookup ns p.1).getD []) k tgt) :=
        alookup_aset_self ns p.1 _
      have hgoal : p.1 ∈ (p :: rest).map Prod.fst := by simp
      rw [if_pos hgoal]
      by_cases hm : p.1 ∈ rest.map Prod.fst
      · rw [if_pos hm, h1]
        simp only [Option.getD_some]
        rw [aset_aset_same]
      · rw [if_neg hm, h1]
    · have h1 : alookup (aset ns p.1 (aset ((alookup ns p.1).getD []) k tgt))
          nation = alookup ns nation :=
        alookup_aset_ne ns p.1 nation _ hn
      by_cases hm : nation ∈ rest.map Prod.fst
      · have hgoal : nation ∈ (p :: rest).map Prod.fst := by
          simp only [List.map_cons, List.mem_cons]
          exact Or.inr hm
        rw [if_pos hm, if_pos hgoal, h1]
      · have hgoal : ¬ nation ∈ (p :: rest).map Prod.fst := by
          simp only [List.map_cons, List.mem_cons]
          rintro (hh | hh)
          · exact hn hh
          · exact hm hh
        rw [if_neg hm, if_neg hgoal, h1]

theorem nationFold_nodup {k tgt : String} :
    ∀ (nd : List (String × SubstitutionData))
      (ns : List (String × List (String × String))),
    (ns.map Prod.fst).Nodup →
    ((nd.foldl
      (fun ns2 p => aset ns2 p.1 (aset ((alookup ns2 p.1).getD []) k tgt))
      ns).map Prod.fst).Nodup := by
  intro nd
  induction nd with
  | nil => intro ns h; exact h
  | cons p rest ih =>
    intro ns h
    rw [List.foldl_cons]
    exact ih _ (aset_keys_nodup ns p.1 _ h)

theorem addEntry_not_kept {tm : List (String × Tankman)}
    {form : List (String × String)} {kv : String × String}
    {nsx : List (String × List (String × String))}
    (hkv : alookup form kv.1 = some kv.2)
    (hr : retKeep tm kv = false) :
    addEntry tm form nsx kv = nsx := by
  by_cases hab : ((alookup tm kv.1).isSome && (kv.2 != "")) = true
  · rw [retKeep, hab] at hr
    simp only [Bool.true_and] at hr
    simp only [addEntry, hab, if_true, hkv, hr, Bool.false_eq_true, if_false]
  · have hab2 : ((alookup tm kv.1).isSome && (kv.2 != "")) = false := by
      revert hab
      cases ((alookup tm kv.1).isSome && (kv.2 != "")) <;> simp
    simp only [addEntry, hab2, Bool.false_eq_true, if_false]

theorem addEntry_kept {tm : List (String × Tankman)}
    {form : List (String × String)} {kv : String × String} {srcT : Tankman}
    {nsx : List (String × List (String × String))}
    (hkv : alookup form kv.1 = some kv.2)
    (hsrc : alookup tm kv.1 = some srcT)
    (hb : (kv.2 != "") = true)
    (hc : (alookup tm kv.2).isSome = true) :
    addEntry tm form nsx kv =
      srcT.nation_data.foldl
        (fun ns2 p => aset ns2 p.1 (aset ((alookup ns2 p.1).getD []) kv.1 kv.2))
        nsx := by
  simp only [addEntry, hsrc, hkv, hb, hc, Option.isSome_some, Bool.and_self,
    if_true]

theorem addEntry_nodup {tm : List (String × Tankman)}
    {form : List (String × String)} {kv : String × String}
    {nsx : List (String × List (String × String))}
    (h : (nsx.map Prod.fst).Nodup) :
    ((addEntry tm form nsx kv).map Prod.fst).Nodup := by
  rw [addEntry.eq_def]
  split
  · split
    · exact h
    · split
      · split
        · exact h
        · exact nationFold_nodup _ _ h
      · exact h
  · exact h

theorem nationSubs_fold {tm : List (String × Tankman)}
    {form : List (String × String)} :
    ∀ (rest : List (String × String))
      (nsx : List (String × List (String × String))),
    (∀ kv ∈ rest, alookup form kv.1 = some kv.2) →
    (∀ kv ∈ rest, ∀ nation inner, alookup nsx nation = some inner →
      ¬ kv.1 ∈ inner.map Prod.fst) →
    (rest.map Prod.fst).Nodup →
    ∀ nation, alookup (rest.foldl (addEntry tm form) nsx) nation =
      nsEntry (alookup nsx nation)
        (rest.filter (fun kv => retKeep tm kv && coversB tm nation kv)) := by
  intro rest
  induction rest with
  | nil =>
    intro nsx _ _ _ nation
    simp only [List.foldl_nil, List.filter_nil]
    cases hb : alookup nsx nation with
    | none => rfl
    | some inner => simp [nsEntry]
  | cons kv rest2 ih =>
    intro nsx hform hfresh hnd nation
    have hkv := hform kv (List.mem_cons_self kv rest2)
    have hform2 : ∀ kv2 ∈ rest2, alookup form kv2.1 = some kv2.2 :=
      fun kv2 h2 => hform kv2 (List.mem_cons_of_mem kv h2)
    simp only [List.map_cons, List.nodup_cons] at hnd
    obtain ⟨hnd1, hnd2⟩ := hnd
    rw [List.foldl_cons]
    by_cases hr : retKeep tm kv = true
    · have ha : (alookup tm kv.1).isSome = true := by
        rw [retKeep] at hr
        exact (Bool.and_eq_true_iff.mp
          ((Bool.and_eq_true_iff.mp hr).1)).1
      have hb : (kv.2 != "") = true := by
        rw [retKeep] at hr
        exact (Bool.and_eq_true_iff.mp
          ((Bool.and_eq_true_iff.mp hr).1)).2
      have hc : (alookup tm kv.2).isSome = true := by
        rw [retKeep] at hr
        exact (Bool.and_eq_true_iff.mp hr).2
      cases hsrc : alookup tm kv.1 with
      | none => rw [hsrc] at ha; simp at ha
      | some srcT =>
        rw [addEntry_kept hkv hsrc hb hc]
        set ns1 := srcT.nation_data.foldl
          (fun ns2 p => aset ns2 p.1 (aset ((alookup ns2 p.1).getD []) kv.1 kv.2))
          nsx with hns1
        have hns1look : ∀ nat2, alookup ns1 nat2 =
            (if nat2 ∈ srcT.nation_data.map Prod.fst
             then some (aset ((alookup nsx nat2).getD []) kv.1 kv.2)
             else alookup nsx nat2) := fun nat2 =>
          nationFold_lookup srcT.nation_data nsx nat2
        have hfreshkv : ∀ nat2, ¬ kv.1 ∈ ((alookup nsx nat2).getD []).map Prod.fst := by
          intro nat2
          cases hbase : alookup nsx nat2 with
          | none => simp
          | some inner =>
            simpa using hfresh kv (List.mem_cons_self kv rest2) nat2 inner hbase
        have hfresh2 : ∀ kv2 ∈ rest2, ∀ nat2 inner,
            alookup ns1 nat2 = some inner → ¬ kv2.1 ∈ inner.map Prod.fst := by
          intro kv2 h2 nat2 inner hlook hmem
          rw [hns1look nat2] at hlook
          by_cases hm : nat2 ∈ srcT.nation_data.map Prod.fst
          · rw [if_pos hm] at hlook
            injection hlook with hlook
            rw [← hlook] at hmem
            rw [aset_keys] at hmem
            have hknot := hfreshkv nat2
            rw [if_neg hknot] at hmem
            rcases List.mem_append.mp hmem with hh | hh
            · cases hbase : alookup nsx nat2 with
              | none => rw [hbase] at hh; simp at hh
              | some inner2 =>
                refine hfresh kv2 (List.mem_cons_of_mem kv h2) nat2 inner2 hbase ?_
                rw [hbase] at hh
                simpa using hh
            · have : kv2.1 = kv.1 := by simpa using hh
              exact hnd1 (this ▸ List.mem_map.mpr ⟨kv2, h2, rfl⟩)
          · rw [if_neg hm] at hlook
            exact hfresh kv2 (List.mem_cons_of_mem kv h2) nat2 inner hlook hmem
        rw [ih ns1 hform2 hfresh2 hnd2 nation]
        have hcov : coversB tm nation kv =
            decide (nation ∈ srcT.nation_data.map Prod.fst) := by
          rw [coversB.eq_def, hsrc]
          by_cases hm : nation ∈ srcT.nation_data.map Prod.fst
          · simp [hm, (alookup_isSome_iff srcT.nation_data nation).mpr hm]
          · simp only [hm, decide_False]
            cases hx : (alookup srcT.nation_data nation) with
            | none => rfl
            | some y =>
              exact absurd ((alookup_isSome_iff srcT.nation_data nation).mp
                (by simp [hx])) hm
        by_cases hm : nation ∈ srcT.nation_data.map Prod.fst
        · have hcovT : (retKeep tm kv && coversB tm nation kv) = true := by
            rw [hr, hcov]
            simp [hm]
          rw [hns1look nation, if_pos hm]
          rw [aset_of_not_mem _ _ _ (hfreshkv nation)]
          simp only [List.filter_cons, hcovT, if_true]
          cases hbase : alookup nsx nation with
          | none => simp [nsEntry, hbase]
          | some inner => simp [nsEntry, hbase, List.append_assoc]
        · have hcovF : (retKeep tm kv && coversB tm nation kv) = false := by
            rw [hcov]
            simp [hm]
          rw [hns1look nation, if_neg hm]
          simp only [List.filter_cons, hcovF, Bool.false_eq_true, if_false]
    · have hr2 : retKeep tm kv = false := by
        revert hr
        cases retKeep tm kv <;> simp
      rw [addEntry_not_kept hkv hr2]
      rw [ih nsx hform2
        (fun kv2 h2 => hfresh kv2 (List.mem_cons_of_mem kv h2)) hnd2 nation]
      simp only [List.filter_cons, hr2, Bool.false_and, Bool.false_eq_true,
        if_false]

theorem nationSubs_nodup {tm : List (String × Tankman)}
    {form : List (String × String)} :
    ((nationSubs tm form).map Prod.fst).Nodup := by
  have hgen : ∀ (rest : List (String × String))
      (nsx : List (String × List (String × String))),
      (nsx.map Prod.fst).Nodup →
      ((rest.foldl (addEntry tm form) nsx).map Prod.fst).Nodup := by
    intro rest
    induction rest with
    | nil => intro nsx h; exact h
    | cons kv rest2 ih =>
      intro nsx h
      rw [List.foldl_cons]
      exact ih _ (addEntry_nodup h)
  exact hgen form [] (by simp)

theorem create_files_paths {st : AppState} :
    ∀ {l : List (String × List (String × String))}
      {files : List (String × String)},
    mapExcept (fun p =>
      match substitute st p.1 p.2 with
      | .error e => Except.error e
      | .ok out => Except.ok (modPath p.1, out)) l = .ok files →
    files.map Prod.fst = l.map (fun p => modPath p.1) := by
  intro l
  induction l with
  | nil =>
    intro files h
    rw [mapExcept] at h
    injection h with h
    subst h
    rfl
  | cons p ps ih =>
    intro files h
    rw [mapExcept] at h
    cases hsub : substitute st p.1 p.2 with
    | error e => rw [hsub] at h; exact absurd h (by simp)
    | ok out =>
      rw [hsub] at h
      simp only at h
      cases hrest : mapExcept (fun p =>
          match substitute st p.1 p.2 with
          | .error e => Except.error e
          | .ok out => Except.ok (modPath p.1, out)) ps with
      | error e => rw [hrest] at h; exact absurd h (by simp)
      | ok files2 =>
        rw [hrest] at h
        injection h with h
        subst h
        simp only [List.map_cons]
        rw [ih hrest]

theorem modPath_injective : Function.Injective modPath := by
  intro a b h
  have hd : ("res/scripts/item_defs/tankmen/".data ++ a.data) ++ ".xml".data =
      ("res/scripts/item_defs/tankmen/".data ++ b.data) ++ ".xml".data :=
    congrArg String.data h
  have h1 := List.append_cancel_right hd
  have h2 := List.append_cancel_left h1
  exact String.ext h2

/-- C4: `create_modpack` silently drops form entries whose target is
empty or whose source or target slug is unregistered; a nation gets an
entry in `nation_substitutions` exactly when some retained entry's source
tankman has data for it, and that entry is the retained entries
restricted to sources covering the nation, in form order; the built
archive holds exactly one file per such nation at
`res/scripts/item_defs/tankmen/<nation>.xml`. -/
theorem c4_modpack {st : AppState} {form : List (String × String)}
    (hnodup : (form.map Prod.fst).Nodup) :
    (∀ nation, alookup (nationSubs st.tankmen form) nation =
      nsEntry none ((retainedEntries st.tankmen form).filter
        (coversB st.tankmen nation))) ∧
    ((nationSubs st.tankmen form).map Prod.fst).Nodup ∧
    (∀ files, create_modpack_files st form = .ok files →
      files.map Prod.fst =
        (nationSubs st.tankmen form).map (fun p => modPath p.1) ∧
      (files.map Prod.fst).Nodup) := by
  refine ⟨?_, nationSubs_nodup, ?_⟩
  · intro nation
    have hform : ∀ kv ∈ form, alookup form kv.1 = some kv.2 := by
      intro kv hkv
      obtain ⟨k, v⟩ := kv
      exact alookup_of_nodup_mem form k v hnodup hkv
    have hfresh : ∀ kv ∈ form, ∀ nat2 inner,
        alookup ([] : List (String × List (String × String))) nat2 =
          some inner → ¬ kv.1 ∈ inner.map Prod.fst := by
      intro kv _ nat2 inner hlook
      exact absurd hlook (by simp [alookup])
    have := @nationSubs_fold st.tankmen form form [] hform hfresh hnodup nation
    rw [nationSubs.eq_def, this]
    rw [retainedEntries_eq_filter, List.filter_filter]
    have hcomm : (fun kv => retKeep st.tankmen kv && coversB st.tankmen nation kv) =
        (fun kv => coversB st.tankmen nation kv && retKeep st.tankmen kv) := by
      funext kv
      exact Bool.and_comm _ _
    rw [show alookup ([] : List (String × List (String × String))) nation =
      none from rfl, hcomm]
  · intro files hfiles
    have hpaths := create_files_paths hfiles
    refine ⟨hpaths, ?_⟩
    rw [hpaths]
    have : (nationSubs st.tankmen form).map (fun p => modPath p.1) =
        ((nationSubs st.tankmen form).map Prod.fst).map modPath := by
      rw [List.map_map]
      rfl
    rw [this]
    exact List.Nodup.map modPath_injective nationSubs_nodup

/-- Witness for C4 at the sample state: the single-entry form maps usa to
one file at the fixed path. -/
theorem c4_witness :
    ((([("slugA", "slugB")] : List (String × String)).map Prod.fst).Nodup) ∧
    (∀ nation, alookup (nationSubs sampleState.tankmen [("slugA", "slugB")])
        nation =
      nsEntry none ((retainedEntries sampleState.tankmen
        [("slugA", "slugB")]).filter (coversB sampleState.tankmen nation))) ∧
    create_modpack_files sampleState [("slugA", "slugB")] = .ok c4files ∧
    c4files.map Prod.fst =
      (nationSubs sampleState.tankmen [("slugA", "slugB")]).map
        (fun p => modPath p.1) :=
  ⟨by decide,
    (@c4_modpack sampleState [("slugA", "slugB")] (by decide)).1,
    rfl,
    ((@c4_modpack sampleState [("slugA", "slugB")] (by decide)).2.2
      c4files rfl).1⟩
